import Mathlib

/-!
Verification of the DLA (diffusion-limited aggregation) crystal-growth simulator,
a C++ program with a sequential variant (`sequential.cc`) and an OpenMP parallel
variant (`parallel.cc`).

Embedding conventions:
* the lattice `std::vector<std::vector<char>>` is a `List (List Nat)`; cells hold
  the numeric value of the C++ `char`: `0` for an empty cell and `88` (the code of
  the character X) for a stuck cell;
* coordinates are `Int`, matching the C++ `int` coordinates that may leave the
  lattice during a walk;
* a pseudo-random engine together with its `uniform_int_distribution(lo, hi)`
  calls is modelled by an ambient stream `σ : Nat → Nat` of raw draws and a
  cursor `i : Nat`; a distribution call consumes one raw draw and maps it into
  `[lo, hi]` by `lo + raw % (hi - lo + 1)`, which is the contract
  `uniform_int_distribution` guarantees (a value in the requested range);
* the unbounded `do/while` loops of the source (rejection sampling, the walk,
  the parallel move redraw) take a fuel argument and return `none` when the
  fuel runs out; every theorem about a loop is conditional on it returning.
-/

namespace DLA

/-- numeric value of the C++ character literal X used for stuck cells. -/
def STUCK : Nat := 88

/-- the lattice: a vector of rows of char cells, as in the source. -/
abbrev Grid := List (List Nat)

/-- thread-safe grid read of `parallel.cc` (`readGrid`); the sequential variant
reads `grid[x][y]` directly, which is the same total function on in-bounds
coordinates.  Out-of-range reads default to `0`; the source only reads in
bounds. -/
def readGrid (g : Grid) (x y : Int) : Nat :=
  (g.getD x.toNat []).getD y.toNat 0

/-- thread-safe grid write of `parallel.cc` (`writeGrid`); the sequential
variant assigns `grid[x][y]` directly.  The source only writes in bounds. -/
def writeGrid (g : Grid) (x y : Int) (v : Nat) : Grid :=
  g.set x.toNat ((g.getD x.toNat []).set y.toNat v)

/-- the bounds test `x >= 0 && x < gridSize && y >= 0 && y < gridSize` that
both variants use for the walk loop and the post-walk stuck test. -/
def inB (n x y : Int) : Prop :=
  0 ≤ x ∧ x < n ∧ 0 ≤ y ∧ y < n

instance (n x y : Int) : Decidable (inB n x y) := by
  unfold inB; infer_instance

/-- Chebyshev distance from the center, `std::max(std::abs(center-x), std::abs(center-y))`
as computed by both drivers. -/
def cheb (c x y : Int) : Int :=
  max |c - x| |c - y|

/-- one `uniform_int_distribution(lo, hi)` call: consume raw draw `σ i` and
map it into `[lo, hi]`. -/
def draw (σ : Nat → Nat) (i : Nat) (lo hi : Int) : Int × Nat :=
  (lo + (σ i : Int) % (hi - lo + 1), i + 1)

/-- `generatePoint` of `sequential.cc` (lines 14-22): rejection-sample a point
until it is outside the exclusion square of half side `radius + 1` around the
center.  The sequential variant does not consult the lattice. -/
def generatePoint (σ : Nat → Nat) (fuel : Nat) (i : Nat) (n center radius : Int) :
    Option (Int × Int × Nat) :=
  match fuel with
  | 0 => none
  | fuel + 1 =>
    let p1 := draw σ i 0 (n - 1)
    let p2 := draw σ p1.2 0 (n - 1)
    if |center - p1.1| ≤ radius + 1 ∧ |center - p2.1| ≤ radius + 1 then
      generatePoint σ fuel p2.2 n center radius
    else
      some (p1.1, p2.1, p2.2)

/-- `generatePoint` of `parallel.cc` (lines 35-43): additionally rejects any
point whose cell does not read `0` (empty). -/
def generatePointPar (σ : Nat → Nat) (fuel : Nat) (i : Nat) (g : Grid)
    (n center radius : Int) : Option (Int × Int × Nat) :=
  match fuel with
  | 0 => none
  | fuel + 1 =>
    let p1 := draw σ i 0 (n - 1)
    let p2 := draw σ p1.2 0 (n - 1)
    if (|center - p1.1| ≤ radius + 1 ∧ |center - p2.1| ≤ radius + 1) ∨
        readGrid g p1.1 p2.1 ≠ 0 then
      generatePointPar σ fuel p2.2 g n center radius
    else
      some (p1.1, p2.1, p2.2)

/-- `nextMove`: two draws from `uniform_int_distribution(-1, 1)`. -/
def nextMove (σ : Nat → Nat) (i : Nat) : Int × Int × Nat :=
  let d1 := draw σ i (-1) 1
  let d2 := draw σ d1.2 (-1) 1
  (d1.1, d2.1, d2.2)

/-- the nine `(dx, dy)` offsets visited by the two nested loops of
`shouldStick`, in loop order. -/
def nbhd : List (Int × Int) :=
  [(-1, -1), (-1, 0), (-1, 1), (0, -1), (0, 0), (0, 1), (1, -1), (1, 0), (1, 1)]

/-- `shouldStick` (both variants): scan the 3x3 block around `(x, y)` and
report whether any in-bounds cell of it reads X.  The parallel variant
additionally performs the `writeGrid(grid, x, y, X)` commit at the moment of
detection; that write is made explicit at the call sites below. -/
def shouldStick (g : Grid) (n x y : Int) : Bool :=
  nbhd.any fun d =>
    decide (inB n (x + d.1) (y + d.2)) && decide (readGrid g (x + d.1) (y + d.2) = STUCK)

/-- `walkParticle` of `sequential.cc` (lines 55-71): while `(x, y)` is in
bounds, stick (committing X to the cell) if the 3x3 stick check fires, else
take an unconditional random step.  Returns the final `(x, y)`, the grid and
the stream cursor. -/
def walkParticle (σ : Nat → Nat) (fuel : Nat) (i : Nat) (g : Grid) (n x y : Int) :
    Option (Int × Int × Grid × Nat) :=
  match fuel with
  | 0 => none
  | fuel + 1 =>
    if inB n x y then
      if shouldStick g n x y then
        some (x, y, writeGrid g x y STUCK, i)
      else
        let m := nextMove σ i
        walkParticle σ fuel m.2.2 g n (x + m.1) (y + m.2.1)
    else
      some (x, y, g, i)

/-- the inner `do/while` of `walkParticle` in `parallel.cc` (lines 85-91):
redraw the step until the target cell is out of bounds or reads `0`. -/
def pickMove (σ : Nat → Nat) (fuel : Nat) (i : Nat) (g : Grid) (n x y : Int) :
    Option (Int × Int × Nat) :=
  match fuel with
  | 0 => none
  | fuel + 1 =>
    let m := nextMove σ i
    let newX := x + m.1
    let newY := y + m.2.1
    if inB n newX newY ∧ readGrid g newX newY ≠ 0 then
      pickMove σ fuel m.2.2 g n x y
    else
      some (newX, newY, m.2.2)

/-- `walkParticle` of `parallel.cc` (lines 76-96): like the sequential walk,
but the committing write happens inside `shouldStick` and the step is chosen
by the redraw loop `pickMove`. -/
def walkParticlePar (σ : Nat → Nat) (fuel mvFuel : Nat) (i : Nat) (g : Grid)
    (n x y : Int) : Option (Int × Int × Grid × Nat) :=
  match fuel with
  | 0 => none
  | fuel + 1 =>
    if inB n x y then
      if shouldStick g n x y then
        some (x, y, writeGrid g x y STUCK, i)
      else
        match pickMove σ mvFuel i g n x y with
        | none => none
        | some (nx, ny, i2) => walkParticlePar σ fuel mvFuel i2 g n nx ny
    else
      some (x, y, g, i)

/-- the lattice as created by both `main`s: an `n x n` grid of `0` cells with
the seed `grid[center][center] = X`, `center = gridSize / 2`. -/
def mkGrid (n : Int) : Grid :=
  writeGrid (List.replicate n.toNat (List.replicate n.toNat 0)) (n / 2) (n / 2) STUCK

/-- outcome of a driver loop: final grid, final radius, and for each executed
iteration the radius snapshot it observed together with whether it went on to
spawn and walk a particle. -/
structure RunResult where
  grid : Grid
  radius : Int
  snaps : List (Int × Bool)
deriving DecidableEq

/-- the post-walk radius update of both `main`s: if the final position is in
bounds (the particle stuck), compute its Chebyshev distance from the center
and raise the radius to it when larger; otherwise the particle was lost and
the radius is unchanged. -/
def nextRadius (c r x y n : Int) : Int :=
  if inB n x y then
    if r < cheb c x y then cheb c x y else r
  else r

/-- the sequential particle loop of `sequential.cc` `main` (lines 172-193):
for each remaining particle, break when `radius >= gridSize/2 - 1`, else
spawn, walk, and on an in-bounds final position raise the radius to the
particle's Chebyshev distance if larger. -/
def seqLoop (σ : Nat → Nat) (gpFuel wkFuel : Nat) (n center : Int) :
    Nat → Nat → Grid → Int → Option RunResult
  | 0, _, g, r => some ⟨g, r, []⟩
  | remaining + 1, i, g, r =>
    if n / 2 - 1 ≤ r then
      some ⟨g, r, [(r, false)]⟩
    else
      match generatePoint σ gpFuel i n center r with
      | none => none
      | some (x, y, i1) =>
        match walkParticle σ wkFuel i1 g n x y with
        | none => none
        | some (x2, y2, g2, i2) =>
          match seqLoop σ gpFuel wkFuel n center remaining i2 g2
              (nextRadius center r x2 y2 n) with
          | none => none
          | some res => some ⟨res.grid, res.radius, (r, true) :: res.snaps⟩

/-- a full sequential run: seed the lattice, start the radius at `0`, run the
particle loop. -/
def seqRun (σ : Nat → Nat) (gpFuel wkFuel numParticles : Nat) (n : Int) :
    Option RunResult :=
  seqLoop σ gpFuel wkFuel n (n / 2) numParticles 0 (mkGrid n) 0

/-- the OpenMP particle loop of `parallel.cc` `main` (lines 187-225), in the
linearization where iterations execute atomically in index order: each
iteration owns a fresh generator (`σs idx`, modelling the engine seeded at
iteration start), snapshots the radius inside the critical section, and either
skips (`continue`) when `radius >= gridSize/2 - 1` or spawns, walks, and
proposes the new distance under the critical section.  The radius snapshot and
update are the serialization points of the source, so every interleaving of
whole iterations is one such linearization. -/
def parLoop (σs : Nat → Nat → Nat) (gpFuel wkFuel mvFuel : Nat) (n center : Int) :
    Nat → Nat → Grid → Int → Option RunResult
  | 0, _, g, r => some ⟨g, r, []⟩
  | remaining + 1, idx, g, r =>
    if n / 2 - 1 ≤ r then
      match parLoop σs gpFuel wkFuel mvFuel n center remaining (idx + 1) g r with
      | none => none
      | some res => some ⟨res.grid, res.radius, (r, false) :: res.snaps⟩
    else
      match generatePointPar (σs idx) gpFuel 0 g n center r with
      | none => none
      | some (x, y, i1) =>
        match walkParticlePar (σs idx) wkFuel mvFuel i1 g n x y with
        | none => none
        | some (x2, y2, g2, _) =>
          match parLoop σs gpFuel wkFuel mvFuel n center remaining (idx + 1) g2
              (nextRadius center r x2 y2 n) with
          | none => none
          | some res => some ⟨res.grid, res.radius, (r, true) :: res.snaps⟩

/-- a full parallel run (linearized): seed the lattice, radius `0`, run all
iterations. -/
def parRun (σs : Nat → Nat → Nat) (gpFuel wkFuel mvFuel numParticles : Nat)
    (n : Int) : Option RunResult :=
  parLoop σs gpFuel wkFuel mvFuel n (n / 2) numParticles 0 (mkGrid n) 0

/-- the per-iteration seed computation of `parallel.cc` (line 194):
`unsigned seed = std::chrono::system_clock::now().time_since_epoch().count();`
truncated to 32-bit `unsigned`.  A worker identifier is available to the
iteration but does not enter the expression. -/
def parallelSeed (clock workerId : Nat) : Nat :=
  clock % 2 ^ 32

/-- the usage message printed when `argc != 3`. -/
def usageMsg : List Char :=
  "Requires one argument\n\nUsage:\n\t./sequential <grid_size> <num_particles>".toList

/-- the message printed when either token fails the regex or the numeric parse. -/
def positiveMsg : List Char :=
  "Grid Size and Number of Particles must be positive integers".toList

/-- the message printed when the grid size is even. -/
def oddMsg : List Char :=
  "Grid Size must be odd".toList

/-- the regex check `std::regex_match(s, std::regex("[0-9]+"))`. -/
def isDigits (s : List Char) : Bool :=
  decide (s ≠ []) && s.all (·.isDigit)

/-- numeric value of a digit string, as `std::stoi` / `std::stoul` compute it. -/
def parseNat (s : List Char) : Nat :=
  s.foldl (fun a c => a * 10 + (c.toNat - 48)) 0

/-- largest value `std::stoi` accepts on the 32-bit-int platform of the build. -/
def INT_MAX : Nat := 2 ^ 31 - 1

/-- largest value `std::stoul` accepts on the 64-bit-long platform of the build. -/
def ULONG_MAX : Nat := 2 ^ 64 - 1

/-- the argument-validation prefix of both `main`s (sequential lines 117-148,
parallel lines 142-173): argument count, the `[0-9]+` regex on both tokens,
the `stoi`/`stoul` parses with their range failures, and the oddness check.
`args` is `argv` without the program name; an `.error` value is a path on
which the source prints the message to stderr and calls `exit(EXIT_FAILURE)`. -/
def validateArgs (args : List (List Char)) : Except (List Char) (Int × Nat) :=
  match args with
  | [gridSizeStr, numParticlesStr] =>
    if ¬ (isDigits gridSizeStr = true ∧ isDigits numParticlesStr = true) then
      .error positiveMsg
    else if ¬ (parseNat gridSizeStr ≤ INT_MAX ∧ parseNat numParticlesStr ≤ ULONG_MAX) then
      .error positiveMsg
    else if parseNat gridSizeStr % 2 = 0 then
      .error oddMsg
    else
      .ok ((parseNat gridSizeStr : Int), parseNat numParticlesStr)
  | _ => .error usageMsg

/-- one cell as emitted by `writeToFile`: `1` when the char cell is nonzero,
`0` otherwise. -/
def cellOut (v : Nat) : List Char :=
  if v ≠ 0 then ['1'] else ['0']

/-- the inner column loop of `writeToFile`: `todo` iterations starting at
column `k`, emitting a comma before every column except column `0`. -/
def rowSuffix (g : Grid) (i : Nat) : Nat → Nat → List Char
  | 0, _ => []
  | todo + 1, k =>
    (if k ≠ 0 then [','] else []) ++ cellOut ((g.getD i []).getD k 0) ++
      rowSuffix g i todo (k + 1)

/-- one emitted row of `writeToFile`. -/
def rowOut (g : Grid) (gs i : Nat) : List Char :=
  rowSuffix g i gs 0

/-- the outer row loop of `writeToFile`: `todo` iterations starting at row `i`,
emitting a newline after every row except row `gridSize - 1`. -/
def fileSuffix (g : Grid) (gs : Nat) : Nat → Nat → List Char
  | 0, _ => []
  | todo + 1, i =>
    rowOut g gs i ++ (if i ≠ gs - 1 then ['\n'] else []) ++ fileSuffix g gs todo (i + 1)

/-- `writeToFile` (sequential lines 76-95, parallel lines 101-120): the full
character stream written to the result file. -/
def writeToFile (g : Grid) (gs : Nat) : List Char :=
  fileSuffix g gs gs 0

/-- the sequential program after `argv` is available: validation, then the
simulation and the file contents.  `.error m` is an exit with nonzero status
and message `m`, before the lattice is created; `.ok none` is fuel exhaustion
of the embedded loops; `.ok (some file)` is a completed run and its output
file. -/
def seqMain (args : List (List Char)) (σ : Nat → Nat) (gpFuel wkFuel : Nat) :
    Except (List Char) (Option (List Char)) :=
  match validateArgs args with
  | .error e => .error e
  | .ok (n, np) =>
    .ok ((seqRun σ gpFuel wkFuel np n).map fun res => writeToFile res.grid n.toNat)

/-- splitting a character stream at a separator character; the parser used to
state the CSV round-trip property. -/
def splitOnChar (c : Char) : List Char → List (List Char)
  | [] => [[]]
  | a :: rest =>
    match splitOnChar c rest with
    | [] => [[a]]
    | s :: ss => if a = c then [] :: s :: ss else (a :: s) :: ss

/-- joining rows with a separator, no trailing separator; the closed form of
the writer loops. -/
def joinSep (sep : List Char) : List (List Char) → List Char
  | [] => []
  | [x] => x
  | x :: y :: ys => x ++ sep ++ joinSep sep (y :: ys)

deriving instance DecidableEq for Except

/-! ### Basic grid lemmas -/

/-- well-formedness of the lattice: `n` rows of `n` cells, as allocated by both
`main`s. -/
def WFGrid (g : Grid) (n : Int) : Prop :=
  g.length = n.toNat ∧ ∀ row ∈ g, row.length = n.toNat

instance (g : Grid) (n : Int) : Decidable (WFGrid g n) := by
  unfold WFGrid
  infer_instance

theorem getD_set_lemma {α : Type} (l : List α) (i j : Nat) (v d : α) :
    (l.set i v).getD j d = if i = j ∧ j < l.length then v else l.getD j d := by
  rw [List.getD_eq_getElem?_getD, List.getD_eq_getElem?_getD, List.getElem?_set]
  rcases eq_or_ne i j with rfl | hne
  · by_cases hlt : i < l.length
    · simp [hlt]
    · simp [hlt, List.getElem?_eq_none (le_of_not_lt hlt)]
  · simp [hne, fun h : i = j ∧ j < l.length => hne h.1]

theorem length_writeGrid (g : Grid) (x y : Int) (v : Nat) :
    (writeGrid g x y v).length = g.length := by
  simp [writeGrid]

theorem WFGrid_writeGrid {g : Grid} {n : Int} (h : WFGrid g n) (x y : Int) (v : Nat) :
    WFGrid (writeGrid g x y v) n := by
  obtain ⟨hlen, hrow⟩ := h
  rcases Nat.lt_or_ge x.toNat g.length with hx | hx
  · refine ⟨by simp [writeGrid, hlen], ?_⟩
    intro row hm
    rcases List.mem_or_eq_of_mem_set hm with hmem | rfl
    · exact hrow _ hmem
    · have hg : g.getD x.toNat [] = g[x.toNat] := List.getD_eq_getElem g [] hx
      rw [List.length_set, hg]
      exact hrow _ (List.getElem_mem hx)
  · have : writeGrid g x y v = g := List.set_eq_of_length_le hx
    rw [this]
    exact ⟨hlen, hrow⟩

theorem readGrid_writeGrid_cases (g : Grid) (x y a b : Int) (v : Nat) :
    readGrid (writeGrid g x y v) a b = v ∨
      readGrid (writeGrid g x y v) a b = readGrid g a b := by
  unfold readGrid writeGrid
  rw [getD_set_lemma]
  split
  · next h =>
    rw [h.1, getD_set_lemma]
    split
    · exact Or.inl rfl
    · exact Or.inr rfl
  · exact Or.inr rfl

theorem readGrid_writeGrid_self {g : Grid} {n x y : Int} (hwf : WFGrid g n)
    (hx : 0 ≤ x) (hxn : x < n) (hy : 0 ≤ y) (hyn : y < n) (v : Nat) :
    readGrid (writeGrid g x y v) x y = v := by
  obtain ⟨hlen, hrow⟩ := hwf
  have hxlt : x.toNat < g.length := by rw [hlen]; omega
  have hrowlen : (g.getD x.toNat []).length = n.toNat := by
    rw [List.getD_eq_getElem g [] hxlt]
    exact hrow _ (List.getElem_mem hxlt)
  have hylt : y.toNat < (g.getD x.toNat []).length := by rw [hrowlen]; omega
  unfold readGrid writeGrid
  rw [getD_set_lemma, if_pos ⟨rfl, hxlt⟩, getD_set_lemma, if_pos ⟨rfl, hylt⟩]

theorem readGrid_writeGrid_ne {g : Grid} (x y a b : Int) (v : Nat)
    (ha : 0 ≤ a) (hb : 0 ≤ b) (hx : 0 ≤ x) (hy : 0 ≤ y)
    (hne : ¬(a = x ∧ b = y)) :
    readGrid (writeGrid g x y v) a b = readGrid g a b := by
  unfold readGrid writeGrid
  rw [getD_set_lemma]
  split
  · next h =>
    rw [h.1, getD_set_lemma]
    split
    · next h2 =>
      exfalso
      exact hne ⟨by omega, by omega⟩
    · rfl
  · rfl

theorem readGrid_replicate (m : Nat) (x y : Int) :
    readGrid (List.replicate m (List.replicate m 0)) x y = 0 := by
  unfold readGrid
  have hrow : (List.replicate m (List.replicate m 0)).getD x.toNat [] = List.replicate m 0 ∨
      (List.replicate m (List.replicate m 0)).getD x.toNat [] = [] := by
    rw [List.getD_eq_getElem?_getD, List.getElem?_replicate]
    split <;> simp
  rcases hrow with h | h <;> rw [h]
  · rw [List.getD_eq_getElem?_getD, List.getElem?_replicate]
    split <;> simp
  · simp

theorem WFGrid_mkGrid (n : Int) : WFGrid (mkGrid n) n := by
  refine WFGrid_writeGrid ⟨by simp, ?_⟩ _ _ _
  intro row hm
  rw [List.eq_of_mem_replicate hm]
  simp

theorem readGrid_mkGrid {n x y : Int} (hn : 0 < n) (hx : 0 ≤ x) (hy : 0 ≤ y) :
    readGrid (mkGrid n) x y = if x = n / 2 ∧ y = n / 2 then STUCK else 0 := by
  have hc0 : 0 ≤ n / 2 := by omega
  have hcn : n / 2 < n := by omega
  split
  · next h =>
    rw [h.1, h.2]
    exact readGrid_writeGrid_self ⟨by simp, fun row hm => by rw [List.eq_of_mem_replicate hm]; simp⟩
      hc0 hcn hc0 hcn STUCK
  · next h =>
    unfold mkGrid
    rw [readGrid_writeGrid_ne _ _ _ _ _ hx hy hc0 hc0 h]
    exact readGrid_replicate n.toNat x y

/-! ### Random draw lemmas -/

theorem draw_range (σ : Nat → Nat) (i : Nat) (lo hi : Int) (h : lo ≤ hi) :
    lo ≤ (draw σ i lo hi).1 ∧ (draw σ i lo hi).1 ≤ hi := by
  unfold draw
  have h1 : 0 ≤ (σ i : Int) % (hi - lo + 1) :=
    Int.emod_nonneg _ (by omega)
  have h2 : (σ i : Int) % (hi - lo + 1) < hi - lo + 1 :=
    Int.emod_lt_of_pos _ (by omega)
  constructor <;> simp <;> omega

theorem nextMove_range (σ : Nat → Nat) (i : Nat) :
    |(nextMove σ i).1| ≤ 1 ∧ |(nextMove σ i).2.1| ≤ 1 := by
  have g1 := draw_range σ i (-1) 1 (by omega)
  have g2 := draw_range σ (i + 1) (-1) 1 (by omega)
  unfold nextMove
  simp only [draw] at g1 g2 ⊢
  constructor <;> [skip; skip] <;> rw [abs_le] <;> exact ⟨by omega, by omega⟩

/-! ### shouldStick characterization -/

theorem shouldStick_iff (g : Grid) (n x y : Int) :
    shouldStick g n x y = true ↔
      ∃ d ∈ nbhd, inB n (x + d.1) (y + d.2) ∧ readGrid g (x + d.1) (y + d.2) = STUCK := by
  unfold shouldStick
  rw [List.any_eq_true]
  constructor
  · rintro ⟨d, hd, hcond⟩
    rw [Bool.and_eq_true, decide_eq_true_eq, decide_eq_true_eq] at hcond
    exact ⟨d, hd, hcond⟩
  · rintro ⟨d, hd, h1, h2⟩
    exact ⟨d, hd, by rw [Bool.and_eq_true, decide_eq_true_eq, decide_eq_true_eq]; exact ⟨h1, h2⟩⟩

theorem nbhd_abs {d : Int × Int} (hd : d ∈ nbhd) : |d.1| ≤ 1 ∧ |d.2| ≤ 1 := by
  fin_cases hd <;> constructor <;> decide

theorem mem_nbhd {dx dy : Int} (hx : |dx| ≤ 1) (hy : |dy| ≤ 1) : (dx, dy) ∈ nbhd := by
  obtain ⟨hx1, hx2⟩ := abs_le.1 hx
  obtain ⟨hy1, hy2⟩ := abs_le.1 hy
  have hx3 : dx = -1 ∨ dx = 0 ∨ dx = 1 := by omega
  have hy3 : dy = -1 ∨ dy = 0 ∨ dy = 1 := by omega
  rcases hx3 with rfl | rfl | rfl <;> rcases hy3 with rfl | rfl | rfl <;> simp [nbhd]

theorem shouldStick_false_all {g : Grid} {n x y : Int} (h : shouldStick g n x y = false)
    {dx dy : Int} (hx : |dx| ≤ 1) (hy : |dy| ≤ 1) (hb : inB n (x + dx) (y + dy)) :
    readGrid g (x + dx) (y + dy) ≠ STUCK := by
  intro hread
  have : shouldStick g n x y = true :=
    (shouldStick_iff g n x y).2 ⟨(dx, dy), mem_nbhd hx hy, hb, hread⟩
  rw [h] at this
  exact absurd this (by simp)

/-! ### Walk lemmas -/

theorem walkParticle_spec {σ : Nat → Nat} {fuel i : Nat} {g : Grid} {n x y : Int}
    {x' y' : Int} {g' : Grid} {i' : Nat}
    (h : walkParticle σ fuel i g n x y = some (x', y', g', i')) :
    (¬inB n x' y' ∧ g' = g) ∨
    (inB n x' y' ∧ shouldStick g n x' y' = true ∧ g' = writeGrid g x' y' STUCK) := by
  induction fuel generalizing i x y with
  | zero => simp [walkParticle] at h
  | succ fuel ih =>
    unfold walkParticle at h
    by_cases hb : inB n x y
    · rw [if_pos hb] at h
      by_cases hs : shouldStick g n x y = true
      · rw [if_pos hs] at h
        simp only [Option.some.injEq, Prod.mk.injEq] at h
        obtain ⟨rfl, rfl, rfl, rfl⟩ := h
        exact Or.inr ⟨hb, hs, rfl⟩
      · rw [Bool.not_eq_true] at hs
        rw [hs] at h
        simp only [Bool.false_eq_true, if_false] at h
        exact ih h
    · rw [if_neg hb] at h
      simp only [Option.some.injEq, Prod.mk.injEq] at h
      obtain ⟨rfl, rfl, rfl, rfl⟩ := h
      exact Or.inl ⟨hb, rfl⟩

theorem walkParticle_not_stuck {σ : Nat → Nat} {fuel i : Nat} {g : Grid} {n x y : Int}
    {x' y' : Int} {g' : Grid} {i' : Nat}
    (h : walkParticle σ fuel i g n x y = some (x', y', g', i'))
    (hxy : inB n x y → readGrid g x y ≠ STUCK) (hb' : inB n x' y') :
    readGrid g x' y' ≠ STUCK := by
  induction fuel generalizing i x y with
  | zero => simp [walkParticle] at h
  | succ fuel ih =>
    unfold walkParticle at h
    by_cases hb : inB n x y
    · rw [if_pos hb] at h
      by_cases hs : shouldStick g n x y = true
      · rw [if_pos hs] at h
        simp only [Option.some.injEq, Prod.mk.injEq] at h
        obtain ⟨rfl, rfl, rfl, rfl⟩ := h
        exact hxy hb
      · rw [Bool.not_eq_true] at hs
        rw [hs] at h
        simp only [Bool.false_eq_true, if_false] at h
        refine ih h fun hbnew => ?_
        obtain ⟨hdx, hdy⟩ := nextMove_range σ i
        exact shouldStick_false_all hs hdx hdy hbnew
    · rw [if_neg hb] at h
      simp only [Option.some.injEq, Prod.mk.injEq] at h
      obtain ⟨rfl, rfl, rfl, rfl⟩ := h
      exact absurd hb' hb

theorem pickMove_spec {σ : Nat → Nat} {fuel i : Nat} {g : Grid} {n x y : Int}
    {nx ny : Int} {i' : Nat}
    (h : pickMove σ fuel i g n x y = some (nx, ny, i')) :
    (¬inB n nx ny ∨ readGrid g nx ny = 0) ∧
      |nx - x| ≤ 1 ∧ |ny - y| ≤ 1 := by
  induction fuel generalizing i with
  | zero => simp [pickMove] at h
  | succ fuel ih =>
    unfold pickMove at h
    by_cases hc : inB n (x + (nextMove σ i).1) (y + (nextMove σ i).2.1) ∧
        readGrid g (x + (nextMove σ i).1) (y + (nextMove σ i).2.1) ≠ 0
    · rw [if_pos hc] at h
      exact ih h
    · rw [if_neg hc] at h
      simp only [Option.some.injEq, Prod.mk.injEq] at h
      obtain ⟨rfl, rfl, rfl⟩ := h
      obtain ⟨hdx, hdy⟩ := nextMove_range σ i
      refine ⟨?_, by simpa using hdx, by simpa using hdy⟩
      by_cases hbn : inB n (x + (nextMove σ i).1) (y + (nextMove σ i).2.1)
      · right
        by_contra hr
        exact hc ⟨hbn, hr⟩
      · exact Or.inl hbn

theorem walkParticlePar_spec {σ : Nat → Nat} {fuel mvFuel i : Nat} {g : Grid}
    {n x y : Int} {x' y' : Int} {g' : Grid} {i' : Nat}
    (h : walkParticlePar σ fuel mvFuel i g n x y = some (x', y', g', i')) :
    (¬inB n x' y' ∧ g' = g) ∨
    (inB n x' y' ∧ shouldStick g n x' y' = true ∧ g' = writeGrid g x' y' STUCK) := by
  induction fuel generalizing i x y with
  | zero => simp [walkParticlePar] at h
  | succ fuel ih =>
    unfold walkParticlePar at h
    by_cases hb : inB n x y
    · rw [if_pos hb] at h
      by_cases hs : shouldStick g n x y = true
      · rw [if_pos hs] at h
        simp only [Option.some.injEq, Prod.mk.injEq] at h
        obtain ⟨rfl, rfl, rfl, rfl⟩ := h
        exact Or.inr ⟨hb, hs, rfl⟩
      · rw [Bool.not_eq_true] at hs
        rw [hs] at h
        simp only [Bool.false_eq_true, if_false] at h
        match hpm : pickMove σ mvFuel i g n x y with
        | none => rw [hpm] at h; exact absurd h (by simp)
        | some (nx, ny, i2) =>
          rw [hpm] at h
          exact ih h
    · rw [if_neg hb] at h
      simp only [Option.some.injEq, Prod.mk.injEq] at h
      obtain ⟨rfl, rfl, rfl, rfl⟩ := h
      exact Or.inl ⟨hb, rfl⟩

theorem walkParticlePar_not_stuck {σ : Nat → Nat} {fuel mvFuel i : Nat} {g : Grid}
    {n x y : Int} {x' y' : Int} {g' : Grid} {i' : Nat}
    (h : walkParticlePar σ fuel mvFuel i g n x y = some (x', y', g', i'))
    (hxy : inB n x y → readGrid g x y ≠ STUCK) (hb' : inB n x' y') :
    readGrid g x' y' ≠ STUCK := by
  induction fuel generalizing i x y with
  | zero => simp [walkParticlePar] at h
  | succ fuel ih =>
    unfold walkParticlePar at h
    by_cases hb : inB n x y
    · rw [if_pos hb] at h
      by_cases hs : shouldStick g n x y = true
      · rw [if_pos hs] at h
        simp only [Option.some.injEq, Prod.mk.injEq] at h
        obtain ⟨rfl, rfl, rfl, rfl⟩ := h
        exact hxy hb
      · rw [Bool.not_eq_true] at hs
        rw [hs] at h
        simp only [Bool.false_eq_true, if_false] at h
        match hpm : pickMove σ mvFuel i g n x y with
        | none => rw [hpm] at h; exact absurd h (by simp)
        | some (nx, ny, i2) =>
          rw [hpm] at h
          refine ih h fun hbnew => ?_
          obtain ⟨hempty, _, _⟩ := pickMove_spec hpm
          rcases hempty with hoob | hval
          · exact absurd hbnew hoob
          · rw [hval]
            simp [STUCK]
    · rw [if_neg hb] at h
      simp only [Option.some.injEq, Prod.mk.injEq] at h
      obtain ⟨rfl, rfl, rfl, rfl⟩ := h
      exact absurd hb' hb

/-! ### Spawner lemmas -/

theorem generatePoint_spec {σ : Nat → Nat} {fuel i : Nat} {n c r x y : Int} {i' : Nat}
    (hn : 0 < n) (h : generatePoint σ fuel i n c r = some (x, y, i')) :
    ¬(|c - x| ≤ r + 1 ∧ |c - y| ≤ r + 1) ∧ 0 ≤ x ∧ x < n ∧ 0 ≤ y ∧ y < n := by
  induction fuel generalizing i with
  | zero => simp [generatePoint] at h
  | succ fuel ih =>
    unfold generatePoint at h
    by_cases hc : |c - (draw σ i 0 (n - 1)).1| ≤ r + 1 ∧
        |c - (draw σ (draw σ i 0 (n - 1)).2 0 (n - 1)).1| ≤ r + 1
    · rw [if_pos hc] at h
      exact ih h
    · rw [if_neg hc] at h
      simp only [Option.some.injEq, Prod.mk.injEq] at h
      obtain ⟨rfl, rfl, rfl⟩ := h
      obtain ⟨ha1, ha2⟩ := draw_range σ i 0 (n - 1) (by omega)
      obtain ⟨hb1, hb2⟩ := draw_range σ (draw σ i 0 (n - 1)).2 0 (n - 1) (by omega)
      exact ⟨hc, ha1, by omega, hb1, by omega⟩

theorem generatePointPar_spec {σ : Nat → Nat} {fuel i : Nat} {g : Grid}
    {n c r x y : Int} {i' : Nat}
    (hn : 0 < n) (h : generatePointPar σ fuel i g n c r = some (x, y, i')) :
    (¬(|c - x| ≤ r + 1 ∧ |c - y| ≤ r + 1) ∧ readGrid g x y = 0) ∧
      0 ≤ x ∧ x < n ∧ 0 ≤ y ∧ y < n := by
  induction fuel generalizing i with
  | zero => simp [generatePointPar] at h
  | succ fuel ih =>
    unfold generatePointPar at h
    by_cases hc : (|c - (draw σ i 0 (n - 1)).1| ≤ r + 1 ∧
        |c - (draw σ (draw σ i 0 (n - 1)).2 0 (n - 1)).1| ≤ r + 1) ∨
        readGrid g (draw σ i 0 (n - 1)).1 (draw σ (draw σ i 0 (n - 1)).2 0 (n - 1)).1 ≠ 0
    · rw [if_pos hc] at h
      exact ih h
    · rw [if_neg hc] at h
      simp only [Option.some.injEq, Prod.mk.injEq] at h
      obtain ⟨rfl, rfl, rfl⟩ := h
      rw [not_or] at hc
      obtain ⟨ha1, ha2⟩ := draw_range σ i 0 (n - 1) (by omega)
      obtain ⟨hb1, hb2⟩ := draw_range σ (draw σ i 0 (n - 1)).2 0 (n - 1) (by omega)
      exact ⟨⟨hc.1, not_not.1 hc.2⟩, ha1, by omega, hb1, by omega⟩

/-! ### Connectivity -/

/-- membership of a cell in the 8-connected component of the center cell
`(c, c)` within the set of stuck in-bounds cells of `g`: the stuck subgraph
connectivity of the spec. -/
inductive Reaches (g : Grid) (n c : Int) : Int → Int → Prop
  | seed : readGrid g c c = STUCK → Reaches g n c c c
  | step {x y x' y' : Int} : Reaches g n c x y → |x' - x| ≤ 1 → |y' - y| ≤ 1 →
      inB n x' y' → readGrid g x' y' = STUCK → Reaches g n c x' y'

theorem Reaches.mono {g g' : Grid} {n c x y : Int}
    (hm : ∀ a b : Int, readGrid g a b = STUCK → readGrid g' a b = STUCK)
    (h : Reaches g n c x y) : Reaches g' n c x y := by
  induction h with
  | seed hs => exact Reaches.seed (hm _ _ hs)
  | step _ hdx hdy hb hs ih => exact Reaches.step ih hdx hdy hb (hm _ _ hs)

theorem readGrid_writeGrid_STUCK_mono (g : Grid) (x y a b : Int)
    (h : readGrid g a b = STUCK) :
    readGrid (writeGrid g x y STUCK) a b = STUCK := by
  rcases readGrid_writeGrid_cases g x y a b STUCK with hc | hc
  · exact hc
  · rw [hc, h]

/-- every in-bounds stuck cell of `g` is in the center's stuck component. -/
def ConnInv (g : Grid) (n c : Int) : Prop :=
  ∀ x y : Int, inB n x y → readGrid g x y = STUCK → Reaches g n c x y

theorem ConnInv_write {g : Grid} {n c x' y' : Int} (hwf : WFGrid g n)
    (hb : inB n x' y') (hs : shouldStick g n x' y' = true) (hinv : ConnInv g n c) :
    ConnInv (writeGrid g x' y' STUCK) n c := by
  have hmono : ∀ a b : Int, readGrid g a b = STUCK →
      readGrid (writeGrid g x' y' STUCK) a b = STUCK :=
    fun a b => readGrid_writeGrid_STUCK_mono g x' y' a b
  obtain ⟨hx0, hxn, hy0, hyn⟩ := hb
  intro a b hab hread
  by_cases heq : a = x' ∧ b = y'
  · obtain ⟨rfl, rfl⟩ := heq
    by_cases hself : readGrid g a b = STUCK
    · exact (hinv a b hab hself).mono hmono
    · obtain ⟨d, hd, hdb, hdstuck⟩ := (shouldStick_iff g n a b).1 hs
      have hdne : ¬(d.1 = 0 ∧ d.2 = 0) := by
        rintro ⟨h1, h2⟩
        rw [h1, h2] at hdstuck
        simp at hdstuck
        exact hself hdstuck
      have hnb : Reaches (writeGrid g a b STUCK) n c (a + d.1) (b + d.2) :=
        (hinv _ _ hdb hdstuck).mono hmono
      obtain ⟨habs1, habs2⟩ := nbhd_abs hd
      refine Reaches.step hnb ?_ ?_ ⟨hx0, hxn, hy0, hyn⟩ ?_
      · rw [show a - (a + d.1) = -d.1 by ring, abs_neg]; exact habs1
      · rw [show b - (b + d.2) = -d.2 by ring, abs_neg]; exact habs2
      · exact readGrid_writeGrid_self hwf hx0 hxn hy0 hyn STUCK
  · have ha0 : 0 ≤ a := hab.1
    have hb0 : 0 ≤ b := hab.2.2.1
    have hold : readGrid g a b = STUCK := by
      rw [← readGrid_writeGrid_ne x' y' a b STUCK ha0 hb0 hx0 hy0 heq]
      exact hread
    exact (hinv a b hab hold).mono hmono

/-! ### Chebyshev distance lemmas -/

theorem cheb_step (c x y dx dy : Int) (hdx : |dx| ≤ 1) (hdy : |dy| ≤ 1) :
    cheb c x y ≤ cheb c (x + dx) (y + dy) + 1 := by
  unfold cheb
  have h1 : |c - x| ≤ |c - (x + dx)| + 1 := by
    have := abs_add (c - (x + dx)) dx
    have harg : c - x = c - (x + dx) + dx := by ring
    rw [harg]
    omega
  have h2 : |c - y| ≤ |c - (y + dy)| + 1 := by
    have := abs_add (c - (y + dy)) dy
    have harg : c - y = c - (y + dy) + dy := by ring
    rw [harg]
    omega
  have hm1 : |c - (x + dx)| ≤ max |c - (x + dx)| |c - (y + dy)| := le_max_left _ _
  have hm2 : |c - (y + dy)| ≤ max |c - (x + dx)| |c - (y + dy)| := le_max_right _ _
  rw [max_le_iff]
  omega

/-! ### Radius update lemmas -/

theorem nextRadius_ge (c r x y n : Int) : r ≤ nextRadius c r x y n := by
  unfold nextRadius
  split
  · split <;> omega
  · omega

theorem nextRadius_oob {c r x y n : Int} (h : ¬inB n x y) :
    nextRadius c r x y n = r := by
  unfold nextRadius
  rw [if_neg h]

theorem nextRadius_stuck {c r x y n : Int} (h : inB n x y) :
    nextRadius c r x y n = max r (cheb c x y) := by
  unfold nextRadius
  rw [if_pos h]
  rcases le_or_lt (cheb c x y) r with hle | hlt
  · rw [if_neg (not_lt.2 hle), max_eq_left hle]
  · rw [if_pos hlt, max_eq_right hlt.le]

/-- all stuck in-bounds cells lie within Chebyshev distance `r` of the center. -/
def DistInv (g : Grid) (n c r : Int) : Prop :=
  ∀ x y : Int, inB n x y → readGrid g x y = STUCK → cheb c x y ≤ r

/-! ### Sequential driver invariants -/

theorem seqLoop_inv {σ : Nat → Nat} {gpFuel wkFuel : Nat} {n c : Int} :
    ∀ {remaining i : Nat} {g : Grid} {r : Int} {res : RunResult},
    seqLoop σ gpFuel wkFuel n c remaining i g r = some res →
    WFGrid g n → ConnInv g n c → DistInv g n c r →
    WFGrid res.grid n ∧ ConnInv res.grid n c ∧ DistInv res.grid n c res.radius ∧
      r ≤ res.radius ∧ (r ≤ n / 2 - 1 → res.radius ≤ n / 2 - 1) := by
  intro remaining
  induction remaining with
  | zero =>
    intro i g r res h hwf hconn hdist
    obtain rfl : (⟨g, r, []⟩ : RunResult) = res := Option.some.inj h
    exact ⟨hwf, hconn, hdist, le_refl r, fun h => h⟩
  | succ remaining ih =>
    intro i g r res h hwf hconn hdist
    rw [seqLoop] at h
    by_cases hbr : n / 2 - 1 ≤ r
    · rw [if_pos hbr] at h
      obtain rfl : (⟨g, r, [(r, false)]⟩ : RunResult) = res := Option.some.inj h
      exact ⟨hwf, hconn, hdist, le_refl r, fun h => h⟩
    · rw [if_neg hbr] at h
      split at h
      · exact absurd h (by simp)
      · next x y i1 hgen =>
        split at h
        · exact absurd h (by simp)
        · next x2 y2 g2 i2 hwk =>
          split at h
          · exact absurd h (by simp)
          · next res2 hrec =>
            obtain rfl : (⟨res2.grid, res2.radius, (r, true) :: res2.snaps⟩ : RunResult) = res :=
              Option.some.inj h
            -- establish the invariants for the post-walk state
            have hstep : WFGrid g2 n ∧ ConnInv g2 n c ∧
                DistInv g2 n c (nextRadius c r x2 y2 n) ∧
                nextRadius c r x2 y2 n ≤ n / 2 - 1 := by
              rcases walkParticle_spec hwk with ⟨hoob, rfl⟩ | ⟨hb, hstick, rfl⟩
              · rw [nextRadius_oob hoob]
                exact ⟨hwf, hconn, fun a b hab hs => hdist a b hab hs, by omega⟩
              · rw [nextRadius_stuck hb]
                obtain ⟨hx0, hxn, hy0, hyn⟩ := hb
                -- the sticking neighbor bounds the new distance by r + 1
                obtain ⟨d, hd, hdb, hdstuck⟩ := (shouldStick_iff g n x2 y2).1 hstick
                obtain ⟨habs1, habs2⟩ := nbhd_abs hd
                have hnbdist : cheb c (x2 + d.1) (y2 + d.2) ≤ r := hdist _ _ hdb hdstuck
                have hnew : cheb c x2 y2 ≤ r + 1 :=
                  le_trans (cheb_step c x2 y2 d.1 d.2 habs1 habs2) (by omega)
                refine ⟨WFGrid_writeGrid hwf x2 y2 STUCK,
                  ConnInv_write hwf ⟨hx0, hxn, hy0, hyn⟩ hstick hconn, ?_, by omega⟩
                intro a b hab hs
                by_cases heq : a = x2 ∧ b = y2
                · obtain ⟨rfl, rfl⟩ := heq
                  omega
                · have hold : readGrid g a b = STUCK := by
                    rw [← readGrid_writeGrid_ne x2 y2 a b STUCK hab.1 hab.2.2.1 hx0 hy0 heq]
                    exact hs
                  have := hdist a b hab hold
                  omega
            obtain ⟨hwf2, hconn2, hdist2, hrad2⟩ := hstep
            obtain ⟨hwf3, hconn3, hdist3, hle3, hthr3⟩ := ih hrec hwf2 hconn2 hdist2
            refine ⟨hwf3, hconn3, hdist3, ?_, fun _ => hthr3 hrad2⟩
            have := nextRadius_ge c r x2 y2 n
            simp only []
            omega

/-! ### Snapshot traces of the drivers -/

theorem seqLoop_snaps {σ : Nat → Nat} {gpFuel wkFuel : Nat} {n c : Int} :
    ∀ {remaining i : Nat} {g : Grid} {r : Int} {res : RunResult},
    seqLoop σ gpFuel wkFuel n c remaining i g r = some res →
    r ≤ res.radius ∧ List.Chain' (fun p q : Int × Bool => p.1 ≤ q.1) res.snaps ∧
      (∀ p ∈ res.snaps.head?, p.1 = r) ∧ (remaining ≠ 0 → res.snaps ≠ []) := by
  intro remaining
  induction remaining with
  | zero =>
    intro i g r res h
    obtain rfl : (⟨g, r, []⟩ : RunResult) = res := Option.some.inj h
    exact ⟨le_refl r, List.chain'_nil, by simp, by simp⟩
  | succ remaining ih =>
    intro i g r res h
    rw [seqLoop] at h
    by_cases hbr : n / 2 - 1 ≤ r
    · rw [if_pos hbr] at h
      obtain rfl : (⟨g, r, [(r, false)]⟩ : RunResult) = res := Option.some.inj h
      refine ⟨le_refl r, ?_, by simp, by simp⟩
      simp [List.chain'_singleton]
    · rw [if_neg hbr] at h
      split at h
      · exact absurd h (by simp)
      · next x y i1 hgen =>
        split at h
        · exact absurd h (by simp)
        · next x2 y2 g2 i2 hwk =>
          split at h
          · exact absurd h (by simp)
          · next res2 hrec =>
            obtain rfl : (⟨res2.grid, res2.radius, (r, true) :: res2.snaps⟩ : RunResult) = res :=
              Option.some.inj h
            obtain ⟨hle, hchain, hhead, _⟩ := ih hrec
            have hr2 := nextRadius_ge c r x2 y2 n
            refine ⟨by simp only []; omega, ?_, by simp, by simp⟩
            rw [List.chain'_cons']
            refine ⟨?_, hchain⟩
            intro q hq
            have := hhead q hq
            simp only []
            omega

theorem seqLoop_saturated {σ : Nat → Nat} {gpFuel wkFuel : Nat} {n c : Int}
    {remaining i : Nat} {g : Grid} {r : Int} {res : RunResult}
    (h : seqLoop σ gpFuel wkFuel n c remaining i g r = some res)
    (hsat : n / 2 - 1 ≤ r) :
    res.grid = g ∧ res.radius = r ∧ ∀ p ∈ res.snaps, p.1 = r ∧ p.2 = false := by
  cases remaining with
  | zero =>
    obtain rfl : (⟨g, r, []⟩ : RunResult) = res := Option.some.inj h
    exact ⟨rfl, rfl, by simp⟩
  | succ remaining =>
    rw [seqLoop, if_pos hsat] at h
    obtain rfl : (⟨g, r, [(r, false)]⟩ : RunResult) = res := Option.some.inj h
    refine ⟨rfl, rfl, ?_⟩
    intro p hp
    simp only [List.mem_singleton] at hp
    rw [hp]
    exact ⟨rfl, rfl⟩

theorem seqLoop_noWalkAfterSat {σ : Nat → Nat} {gpFuel wkFuel : Nat} {n c : Int} :
    ∀ {remaining i : Nat} {g : Grid} {r : Int} {res : RunResult},
    seqLoop σ gpFuel wkFuel n c remaining i g r = some res →
    ∀ (pre : List (Int × Bool)) (v : Int) (b : Bool) (post : List (Int × Bool)),
    res.snaps = pre ++ (v, b) :: post → n / 2 - 1 ≤ v →
    b = false ∧ post = [] := by
  intro remaining
  induction remaining with
  | zero =>
    intro i g r res h pre v b post hsnap hsat
    obtain rfl : (⟨g, r, []⟩ : RunResult) = res := Option.some.inj h
    simp at hsnap
  | succ remaining ih =>
    intro i g r res h pre v b post hsnap hsat
    rw [seqLoop] at h
    by_cases hbr : n / 2 - 1 ≤ r
    · rw [if_pos hbr] at h
      obtain rfl : (⟨g, r, [(r, false)]⟩ : RunResult) = res := Option.some.inj h
      cases pre with
      | nil =>
        simp only [List.nil_append, List.cons.injEq, Prod.mk.injEq] at hsnap
        exact ⟨hsnap.1.2.symm, hsnap.2.symm⟩
      | cons q pre' =>
        simp only [List.cons_append, List.cons.injEq] at hsnap
        exact absurd hsnap.2 (by simp)
    · rw [if_neg hbr] at h
      split at h
      · exact absurd h (by simp)
      · next x y i1 hgen =>
        split at h
        · exact absurd h (by simp)
        · next x2 y2 g2 i2 hwk =>
          split at h
          · exact absurd h (by simp)
          · next res2 hrec =>
            obtain rfl : (⟨res2.grid, res2.radius, (r, true) :: res2.snaps⟩ : RunResult) = res :=
              Option.some.inj h
            cases pre with
            | nil =>
              simp only [List.nil_append, List.cons.injEq, Prod.mk.injEq] at hsnap
              rw [← hsnap.1.1] at hsat
              exact absurd hsat hbr
            | cons q pre' =>
              simp only [List.cons_append, List.cons.injEq] at hsnap
              exact ih hrec pre' v b post hsnap.2 hsat

theorem parLoop_connInv {σs : Nat → Nat → Nat} {gpFuel wkFuel mvFuel : Nat} {n c : Int} :
    ∀ {remaining idx : Nat} {g : Grid} {r : Int} {res : RunResult},
    parLoop σs gpFuel wkFuel mvFuel n c remaining idx g r = some res →
    WFGrid g n → ConnInv g n c →
    WFGrid res.grid n ∧ ConnInv res.grid n c := by
  intro remaining
  induction remaining with
  | zero =>
    intro idx g r res h hwf hconn
    obtain rfl : (⟨g, r, []⟩ : RunResult) = res := Option.some.inj h
    exact ⟨hwf, hconn⟩
  | succ remaining ih =>
    intro idx g r res h hwf hconn
    rw [parLoop] at h
    by_cases hbr : n / 2 - 1 ≤ r
    · rw [if_pos hbr] at h
      split at h
      · exact absurd h (by simp)
      · next res2 hrec =>
        obtain rfl : (⟨res2.grid, res2.radius, (r, false) :: res2.snaps⟩ : RunResult) = res :=
          Option.some.inj h
        obtain ⟨h1, h2⟩ := ih hrec hwf hconn
        exact ⟨h1, h2⟩
    · rw [if_neg hbr] at h
      split at h
      · exact absurd h (by simp)
      · next x y i1 hgen =>
        split at h
        · exact absurd h (by simp)
        · next x2 y2 g2 i2 hwk =>
          split at h
          · exact absurd h (by simp)
          · next res2 hrec =>
            obtain rfl : (⟨res2.grid, res2.radius, (r, true) :: res2.snaps⟩ : RunResult) = res :=
              Option.some.inj h
            rcases walkParticlePar_spec hwk with ⟨_, rfl⟩ | ⟨hb, hstick, rfl⟩
            · obtain ⟨h1, h2⟩ := ih hrec hwf hconn
              exact ⟨h1, h2⟩
            · obtain ⟨h1, h2⟩ := ih hrec (WFGrid_writeGrid hwf x2 y2 STUCK)
                (ConnInv_write hwf hb hstick hconn)
              exact ⟨h1, h2⟩

theorem parLoop_snaps {σs : Nat → Nat → Nat} {gpFuel wkFuel mvFuel : Nat} {n c : Int} :
    ∀ {remaining idx : Nat} {g : Grid} {r : Int} {res : RunResult},
    parLoop σs gpFuel wkFuel mvFuel n c remaining idx g r = some res →
    r ≤ res.radius ∧ List.Chain' (fun p q : Int × Bool => p.1 ≤ q.1) res.snaps ∧
      (∀ p ∈ res.snaps.head?, p.1 = r) ∧ (remaining ≠ 0 → res.snaps ≠ []) := by
  intro remaining
  induction remaining with
  | zero =>
    intro idx g r res h
    obtain rfl : (⟨g, r, []⟩ : RunResult) = res := Option.some.inj h
    exact ⟨le_refl r, List.chain'_nil, by simp, by simp⟩
  | succ remaining ih =>
    intro idx g r res h
    rw [parLoop] at h
    by_cases hbr : n / 2 - 1 ≤ r
    · rw [if_pos hbr] at h
      split at h
      · exact absurd h (by simp)
      · next res2 hrec =>
        obtain rfl : (⟨res2.grid, res2.radius, (r, false) :: res2.snaps⟩ : RunResult) = res :=
          Option.some.inj h
        obtain ⟨hle, hchain, hhead, _⟩ := ih hrec
        refine ⟨by simp only []; omega, ?_, by simp, by simp⟩
        rw [List.chain'_cons']
        refine ⟨?_, hchain⟩
        intro q hq
        have := hhead q hq
        simp only []
        omega
    · rw [if_neg hbr] at h
      split at h
      · exact absurd h (by simp)
      · next x y i1 hgen =>
        split at h
        · exact absurd h (by simp)
        · next x2 y2 g2 i2 hwk =>
          split at h
          · exact absurd h (by simp)
          · next res2 hrec =>
            obtain rfl : (⟨res2.grid, res2.radius, (r, true) :: res2.snaps⟩ : RunResult) = res :=
              Option.some.inj h
            obtain ⟨hle, hchain, hhead, _⟩ := ih hrec
            have hr2 := nextRadius_ge c r x2 y2 n
            refine ⟨by simp only []; omega, ?_, by simp, by simp⟩
            rw [List.chain'_cons']
            refine ⟨?_, hchain⟩
            intro q hq
            have := hhead q hq
            simp only []
            omega

theorem parLoop_saturated {σs : Nat → Nat → Nat} {gpFuel wkFuel mvFuel : Nat} {n c : Int} :
    ∀ {remaining idx : Nat} {g : Grid} {r : Int} {res : RunResult},
    parLoop σs gpFuel wkFuel mvFuel n c remaining idx g r = some res →
    n / 2 - 1 ≤ r →
    res.grid = g ∧ res.radius = r ∧ ∀ p ∈ res.snaps, p.1 = r ∧ p.2 = false := by
  intro remaining
  induction remaining with
  | zero =>
    intro idx g r res h hsat
    obtain rfl : (⟨g, r, []⟩ : RunResult) = res := Option.some.inj h
    exact ⟨rfl, rfl, by simp⟩
  | succ remaining ih =>
    intro idx g r res h hsat
    rw [parLoop, if_pos hsat] at h
    split at h
    · exact absurd h (by simp)
    · next res2 hrec =>
      obtain rfl : (⟨res2.grid, res2.radius, (r, false) :: res2.snaps⟩ : RunResult) = res :=
        Option.some.inj h
      obtain ⟨hg, hr, hall⟩ := ih hrec hsat
      refine ⟨hg, hr, ?_⟩
      intro p hp
      simp only [List.mem_cons] at hp
      rcases hp with rfl | hp
      · exact ⟨rfl, rfl⟩
      · exact hall p hp

theorem parLoop_noWalkAfterSat {σs : Nat → Nat → Nat} {gpFuel wkFuel mvFuel : Nat} {n c : Int} :
    ∀ {remaining idx : Nat} {g : Grid} {r : Int} {res : RunResult},
    parLoop σs gpFuel wkFuel mvFuel n c remaining idx g r = some res →
    ∀ (pre : List (Int × Bool)) (v : Int) (b : Bool) (post : List (Int × Bool)),
    res.snaps = pre ++ (v, b) :: post → n / 2 - 1 ≤ v →
    b = false ∧ ∀ q ∈ post, q.2 = false := by
  intro remaining
  induction remaining with
  | zero =>
    intro idx g r res h pre v b post hsnap hsat
    obtain rfl : (⟨g, r, []⟩ : RunResult) = res := Option.some.inj h
    simp at hsnap
  | succ remaining ih =>
    intro idx g r res h pre v b post hsnap hsat
    rw [parLoop] at h
    by_cases hbr : n / 2 - 1 ≤ r
    · rw [if_pos hbr] at h
      split at h
      · exact absurd h (by simp)
      · next res2 hrec =>
        obtain rfl : (⟨res2.grid, res2.radius, (r, false) :: res2.snaps⟩ : RunResult) = res :=
          Option.some.inj h
        obtain ⟨_, _, hall⟩ := parLoop_saturated hrec hbr
        cases pre with
        | nil =>
          simp only [List.nil_append, List.cons.injEq, Prod.mk.injEq] at hsnap
          refine ⟨hsnap.1.2.symm, ?_⟩
          intro q hq
          rw [← hsnap.2] at hq
          exact (hall q hq).2
        | cons q pre' =>
          simp only [List.cons_append, List.cons.injEq] at hsnap
          refine ⟨?_, ?_⟩
          · have hmem : (v, b) ∈ res2.snaps := by
              rw [hsnap.2]
              exact List.mem_append_right _ (List.mem_cons_self _ _)
            exact (hall _ hmem).2
          · intro q2 hq2
            have hmem : q2 ∈ res2.snaps := by
              rw [hsnap.2]
              exact List.mem_append_right _ (List.mem_cons_of_mem _ hq2)
            exact (hall q2 hmem).2
    · rw [if_neg hbr] at h
      split at h
      · exact absurd h (by simp)
      · next x y i1 hgen =>
        split at h
        · exact absurd h (by simp)
        · next x2 y2 g2 i2 hwk =>
          split at h
          · exact absurd h (by simp)
          · next res2 hrec =>
            obtain rfl : (⟨res2.grid, res2.radius, (r, true) :: res2.snaps⟩ : RunResult) = res :=
              Option.some.inj h
            cases pre with
            | nil =>
              simp only [List.nil_append, List.cons.injEq, Prod.mk.injEq] at hsnap
              rw [← hsnap.1.1] at hsat
              exact absurd hsat hbr
            | cons q pre' =>
              simp only [List.cons_append, List.cons.injEq] at hsnap
              exact ih hrec pre' v b post hsnap.2 hsat

/-! ### Writer lemmas -/

theorem cellOut_cases (v : Nat) : cellOut v = ['0'] ∨ cellOut v = ['1'] := by
  unfold cellOut
  split
  · exact Or.inr rfl
  · exact Or.inl rfl

theorem mem_cellOut {ch : Char} {v : Nat} (h : ch ∈ cellOut v) : ch = '0' ∨ ch = '1' := by
  rcases cellOut_cases v with hc | hc <;> rw [hc] at h <;> simp at h <;> simp [h]

theorem cellOut_ne_nil (v : Nat) : cellOut v ≠ [] := by
  rcases cellOut_cases v with hc | hc <;> simp [hc]

/-- the comma-prefixed cell stream produced by the inner writer loop after
column zero. -/
def commaCells (g : Grid) (i : Nat) (ks : List Nat) : List Char :=
  (ks.map fun k => ',' :: cellOut ((g.getD i []).getD k 0)).flatten

theorem rowSuffix_pos (g : Grid) (i : Nat) :
    ∀ todo k, k ≠ 0 → rowSuffix g i todo k = commaCells g i (List.range' k todo) := by
  intro todo
  induction todo with
  | zero => intro k hk; simp [rowSuffix, commaCells]
  | succ todo ih =>
    intro k hk
    rw [rowSuffix, if_pos hk, List.range'_succ k todo 1]
    unfold commaCells
    rw [List.map_cons, List.flatten_cons, ih (k + 1) (by omega)]
    rw [commaCells]
    simp

theorem rowOut_eq (g : Grid) (gs i : Nat) (hgs : gs ≠ 0) :
    rowOut g gs i = cellOut ((g.getD i []).getD 0 0) ++ commaCells g i (List.range' 1 (gs - 1)) := by
  obtain ⟨t, rfl⟩ : ∃ t, gs = t + 1 := ⟨gs - 1, by omega⟩
  unfold rowOut
  rw [rowSuffix, if_neg (by simp)]
  rcases Nat.eq_zero_or_pos t with rfl | ht
  · simp [rowSuffix, commaCells]
  · rw [rowSuffix_pos g i t 1 (by omega)]
    simp

theorem joinSep_cons_eq (sep : List Char) (x : List Char) (xs : List (List Char)) :
    joinSep sep (x :: xs) = x ++ (xs.map fun y => sep ++ y).flatten := by
  induction xs generalizing x with
  | nil => simp [joinSep]
  | cons y ys ih =>
    rw [joinSep, ih y, List.map_cons, List.flatten_cons]
    simp

theorem rowOut_eq_joinSep (g : Grid) (gs i : Nat) (hgs : gs ≠ 0) :
    rowOut g gs i =
      joinSep [','] ((List.range gs).map fun k => cellOut ((g.getD i []).getD k 0)) := by
  obtain ⟨t, rfl⟩ : ∃ t, gs = t + 1 := ⟨gs - 1, by omega⟩
  rw [rowOut_eq g (t + 1) i hgs, List.range_eq_range' (t + 1), List.range'_succ 0 t 1,
    List.map_cons, joinSep_cons_eq]
  congr 1
  unfold commaCells
  simp [Function.comp_def]

theorem fileSuffix_eq (g : Grid) (gs : Nat) :
    ∀ todo i, i + todo = gs → todo ≠ 0 →
    fileSuffix g gs todo i = joinSep ['\n'] ((List.range' i todo).map (rowOut g gs)) := by
  intro todo
  induction todo with
  | zero => intro i h h0; exact absurd rfl h0
  | succ todo ih =>
    intro i h h0
    rw [fileSuffix]
    cases todo with
    | zero =>
      have hi : i = gs - 1 := by omega
      rw [if_neg (by omega)]
      simp [fileSuffix, joinSep, List.range'_one]
    | succ t =>
      have hine : i ≠ gs - 1 := by omega
      rw [if_pos hine, ih (i + 1) (by omega) (by omega)]
      rw [List.range'_succ i (t + 1) 1, List.map_cons,
        List.range'_succ (i + 1) t 1, List.map_cons]
      rfl

theorem writeToFile_eq (g : Grid) (gs : Nat) (hgs : gs ≠ 0) :
    writeToFile g gs = joinSep ['\n'] ((List.range gs).map (rowOut g gs)) := by
  unfold writeToFile
  rw [fileSuffix_eq g gs gs 0 (by omega) hgs, List.range_eq_range' gs]

/-! ### Split lemmas -/

theorem splitOnChar_ne_nil (c : Char) (l : List Char) : splitOnChar c l ≠ [] := by
  induction l with
  | nil => simp [splitOnChar]
  | cons a rest ih =>
    rw [splitOnChar]
    rcases splitOnChar c rest with _ | ⟨s, ss⟩
    · simp
    · by_cases hac : a = c <;> simp [hac]

theorem splitOnChar_no_sep {c : Char} {l : List Char} (h : c ∉ l) :
    splitOnChar c l = [l] := by
  induction l with
  | nil => rfl
  | cons a rest ih =>
    have hac : a ≠ c := fun hh => h (hh ▸ List.mem_cons_self a rest)
    have hcr : c ∉ rest := fun hh => h (List.mem_cons_of_mem a hh)
    rw [splitOnChar, ih hcr]
    simp [hac]

theorem splitOnChar_append {c : Char} {x rest : List Char} (h : c ∉ x) :
    splitOnChar c (x ++ c :: rest) = x :: splitOnChar c rest := by
  induction x with
  | nil =>
    rw [List.nil_append, splitOnChar]
    rcases hs : splitOnChar c rest with _ | ⟨s, ss⟩
    · exact absurd hs (splitOnChar_ne_nil c rest)
    · simp
  | cons a x' ih =>
    have hac : a ≠ c := fun hh => h (hh ▸ List.mem_cons_self a x')
    have hcx : c ∉ x' := fun hh => h (List.mem_cons_of_mem a hh)
    rw [List.cons_append, splitOnChar, ih hcx]
    simp [hac]

theorem splitOnChar_joinSep {c : Char} :
    ∀ {xs : List (List Char)}, xs ≠ [] → (∀ x ∈ xs, c ∉ x) →
    splitOnChar c (joinSep [c] xs) = xs := by
  intro xs
  induction xs with
  | nil => intro h; exact absurd rfl h
  | cons x xs ih =>
    intro _ hno
    cases xs with
    | nil =>
      rw [joinSep]
      exact splitOnChar_no_sep (hno x (List.mem_cons_self x []))
    | cons y ys =>
      rw [joinSep, List.append_assoc, List.singleton_append,
        splitOnChar_append (hno x (List.mem_cons_self x _))]
      rw [ih (by simp) fun z hz => hno z (List.mem_cons_of_mem x hz)]

theorem mem_rowSuffix {g : Grid} {i : Nat} {ch : Char} :
    ∀ {todo k : Nat}, ch ∈ rowSuffix g i todo k → ch = '0' ∨ ch = '1' ∨ ch = ',' := by
  intro todo
  induction todo with
  | zero => intro k h; simp [rowSuffix] at h
  | succ todo ih =>
    intro k h
    rw [rowSuffix] at h
    rcases List.mem_append.1 h with h1 | h2
    · rcases List.mem_append.1 h1 with ha | hb
      · split at ha
        · simp at ha; exact Or.inr (Or.inr ha)
        · simp at ha
      · rcases mem_cellOut hb with hc | hc <;> simp [hc]
    · exact ih h2

theorem mem_rowOut {g : Grid} {gs i : Nat} {ch : Char} (h : ch ∈ rowOut g gs i) :
    ch = '0' ∨ ch = '1' ∨ ch = ',' :=
  mem_rowSuffix h

theorem rowOut_ne_nil (g : Grid) (gs i : Nat) (hgs : gs ≠ 0) : rowOut g gs i ≠ [] := by
  rw [rowOut_eq g gs i hgs]
  intro h
  rcases List.append_eq_nil.1 h with ⟨h1, _⟩
  exact cellOut_ne_nil _ h1

theorem getD_map_range {α : Type} (f : Nat → α) (d : α) {i n : Nat} (h : i < n) :
    ((List.range n).map f).getD i d = f i := by
  rw [List.getD_eq_getElem?_getD]
  simp [List.getElem?_map, List.getElem?_range, h]

theorem getLast?_joinSep (sep : List Char) :
    ∀ (xs : List (List Char)) (x : List Char), x ≠ [] →
    (joinSep sep (xs ++ [x])).getLast? = x.getLast? := by
  intro xs
  induction xs with
  | nil =>
    intro x hx
    rw [List.nil_append]
    rfl
  | cons a xs ih =>
    intro x hx
    cases xs with
    | nil =>
      have h1 : joinSep sep ((a :: List.nil) ++ [x]) = (a ++ sep) ++ x := rfl
      rw [h1]
      exact List.getLast?_append_of_ne_nil _ hx
    | cons q qs =>
      have h1 : joinSep sep ((a :: q :: qs) ++ [x]) =
          (a ++ sep) ++ joinSep sep ((q :: qs) ++ [x]) := rfl
      rw [h1]
      have h2 := ih x hx
      have hne : joinSep sep ((q :: qs) ++ [x]) ≠ [] := by
        intro hemp
        rw [hemp] at h2
        simp only [List.getLast?_nil] at h2
        exact hx (List.getLast?_eq_none_iff.1 h2.symm)
      rw [List.getLast?_append_of_ne_nil _ hne]
      exact h2

theorem grid_cell_cases {g : Grid} {gs : Nat} (hlen : g.length = gs)
    (hrows : ∀ row ∈ g, row.length = gs)
    (hcells : ∀ row ∈ g, ∀ v ∈ row, v = 0 ∨ v = STUCK)
    {i k : Nat} (hi : i < gs) (hk : k < gs) :
    (g.getD i []).getD k 0 = 0 ∨ (g.getD i []).getD k 0 = STUCK := by
  have hi' : i < g.length := by omega
  have hrowmem : g.getD i [] ∈ g := by
    rw [List.getD_eq_getElem g [] hi']
    exact List.getElem_mem hi'
  have hrl : (g.getD i []).length = gs := hrows _ hrowmem
  have hk' : k < (g.getD i []).length := by omega
  have hvmem : (g.getD i []).getD k 0 ∈ g.getD i [] := by
    rw [List.getD_eq_getElem _ 0 hk']
    exact List.getElem_mem hk'
  exact hcells _ hrowmem _ hvmem

/-! ### Claim theorems -/

/-- C1: every point returned by the spawner satisfies both acceptance
conditions: it lies outside the exclusion square of half side `radius + 1`
around the center, and its lattice cell reads empty at acceptance time.  The
parallel `generatePoint` checks both conditions in its rejection loop; the
sequential one checks only the exclusion, and emptiness follows because on
every lattice the sequential driver can pass (hypothesis `hlat`, the invariant
established in `seqLoop_inv`) all stuck cells lie within Chebyshev distance
`radius` of the center while accepted points lie strictly outside
`radius + 1`. -/
theorem spawner_accepts_valid_points
    (σp σ : Nat → Nat) (fp f ip i : Nat) (g gseq : Grid) (n c r : Int)
    (xp yp : Int) (ip' : Nat) (xs ys : Int) (is' : Nat)
    (hn : 0 < n)
    (hpar : generatePointPar σp fp ip g n c r = some (xp, yp, ip'))
    (hseq : generatePoint σ f i n c r = some (xs, ys, is'))
    (hlat : ∀ a b : Int, inB n a b → readGrid gseq a b ≠ 0 → cheb c a b ≤ r) :
    (¬(|c - xp| ≤ r + 1 ∧ |c - yp| ≤ r + 1) ∧ readGrid g xp yp = 0) ∧
    (¬(|c - xs| ≤ r + 1 ∧ |c - ys| ≤ r + 1) ∧ readGrid gseq xs ys = 0) := by
  obtain ⟨hp, _⟩ := generatePointPar_spec hn hpar
  obtain ⟨hex, hx0, hxn, hy0, hyn⟩ := generatePoint_spec hn hseq
  refine ⟨hp, hex, ?_⟩
  by_contra hne
  have hch := hlat xs ys ⟨hx0, hxn, hy0, hyn⟩ hne
  rw [not_and_or] at hex
  unfold cheb at hch
  have hm1 : |c - xs| ≤ max |c - xs| |c - ys| := le_max_left _ _
  have hm2 : |c - ys| ≤ max |c - xs| |c - ys| := le_max_right _ _
  rcases hex with hgt | hgt
  · rw [not_le] at hgt
    linarith
  · rw [not_le] at hgt
    linarith

/-- C1 witness: a concrete accepted point for each variant on the freshly
seeded five-cell lattice at radius `0`. -/
theorem spawner_accepts_valid_points_witness :
    (¬(|(2 : Int) - 0| ≤ 0 + 1 ∧ |(2 : Int) - 0| ≤ 0 + 1) ∧ readGrid (mkGrid 5) 0 0 = 0) ∧
    (¬(|(2 : Int) - 0| ≤ 0 + 1 ∧ |(2 : Int) - 0| ≤ 0 + 1) ∧ readGrid (mkGrid 5) 0 0 = 0) := by
  have hlat : ∀ a b : Int, inB 5 a b → readGrid (mkGrid 5) a b ≠ 0 → cheb 2 a b ≤ 0 := by
    intro a b hb hr
    rw [readGrid_mkGrid (by norm_num) hb.1 hb.2.2.1] at hr
    split at hr
    · next hcen =>
      rw [hcen.1, hcen.2]
      decide
    · exact absurd rfl hr
  exact spawner_accepts_valid_points (fun _ => 0) (fun _ => 0) 1 1 0 0
    (mkGrid 5) (mkGrid 5) 5 2 0 0 0 2 0 0 2
    (by norm_num) (by decide) (by decide) hlat

/-- C10: the parallel walker's move-selection loop only ever returns a target
that is out of bounds or that read empty at selection time, and the chosen
step is one of the nine king moves; so the parallel walker never moves onto an
in-bounds cell it observed as occupied. -/
theorem parallel_walker_move_avoidance
    (σ : Nat → Nat) (fuel i : Nat) (g : Grid) (n x y nx ny : Int) (i' : Nat)
    (h : pickMove σ fuel i g n x y = some (nx, ny, i')) :
    (¬inB n nx ny ∨ readGrid g nx ny = 0) ∧ |nx - x| ≤ 1 ∧ |ny - y| ≤ 1 := by
  exact pickMove_spec h

/-- C10 witness: the all-zero draw stream immediately steps from the corner off
the lattice. -/
theorem parallel_walker_move_avoidance_witness :
    (¬inB 5 (-1) (-1) ∨ readGrid (mkGrid 5) (-1) (-1) = 0) ∧
      |(-1 : Int) - 0| ≤ 1 ∧ |(-1 : Int) - 0| ≤ 1 := by
  exact parallel_walker_move_avoidance (fun _ => 0) 1 0 (mkGrid 5) 5 0 0 (-1) (-1) 2 (by decide)

/-- C8 counterexample: the per-iteration seed of `parallel.cc` is the clock
value alone, so two distinct workers that read the same clock value compute
the same seed, contradicting the claim that their seeds differ. -/
theorem parallelSeed_ignores_worker_id :
    parallelSeed 123456 0 = parallelSeed 123456 1 ∧ (0 : Nat) ≠ 1 := by
  exact ⟨rfl, by decide⟩

/-- C8 (amended): each iteration's generator seed is computed from the
system-clock reading alone, truncated to `unsigned`; the worker identifier
never enters the computation, so all workers with the same clock reading get
the same seed (and hence the same stream). -/
theorem parallelSeed_clock_only (clock w1 w2 : Nat) :
    parallelSeed clock w1 = parallelSeed clock w2 := rfl

/-- C9 counterexample: an input whose grid-size token parses to the even
number `4` but whose particles token fails the digits regex exits with the
"positive integers" message, not the "must be odd" message the claim
promises for every such input. -/
theorem even_gridSize_other_message :
    validateArgs [['4'], ['x']] = .error positiveMsg ∧ positiveMsg ≠ oddMsg := by
  exact ⟨rfl, by decide⟩

/-- C9 (amended): for inputs of exactly two tokens that both match `[0-9]+`
and are within the `stoi`/`stoul` ranges, an even grid size makes validation
fail with exactly the message "Grid Size must be odd", and the program exits
before the lattice is created or any output file is written (`seqMain` returns
the error, never a file). -/
theorem even_gridSize_rejected_odd_message
    (gs np : List Char) (σ : Nat → Nat) (gpFuel wkFuel : Nat)
    (hg : isDigits gs = true) (hp : isDigits np = true)
    (hgl : parseNat gs ≤ INT_MAX) (hpl : parseNat np ≤ ULONG_MAX)
    (heven : parseNat gs % 2 = 0) :
    validateArgs [gs, np] = .error oddMsg ∧
      seqMain [gs, np] σ gpFuel wkFuel = .error oddMsg := by
  have hv : validateArgs [gs, np] = .error oddMsg := by
    have hred : validateArgs [gs, np] =
        if ¬(isDigits gs = true ∧ isDigits np = true) then Except.error positiveMsg
        else if ¬(parseNat gs ≤ INT_MAX ∧ parseNat np ≤ ULONG_MAX) then
          Except.error positiveMsg
        else if parseNat gs % 2 = 0 then Except.error oddMsg
        else Except.ok ((parseNat gs : Int), parseNat np) := rfl
    rw [hred, if_neg (by simp [hg, hp]), if_neg (by simp [hgl, hpl]), if_pos heven]
  refine ⟨hv, ?_⟩
  unfold seqMain
  rw [hv]

/-- C9 witness: grid size `4`, particle count `10`. -/
theorem even_gridSize_rejected_odd_message_witness :
    validateArgs [['4'], ['1', '0']] = .error oddMsg ∧
      seqMain [['4'], ['1', '0']] (fun _ => 0) 1 1 = .error oddMsg := by
  exact even_gridSize_rejected_odd_message ['4'] ['1', '0'] (fun _ => 0) 1 1
    (by decide) (by decide) (by decide) (by decide) (by decide)

/-- C2 counterexample: starting the sequential walker on the seed cell itself
(an in-bounds starting point), the walk returns in bounds and commits the cell,
but no in-bounds 8-neighbor (an offset other than `(0,0)`) read stuck at the
stick check: the 3x3 check fired on the cell itself.  So the claimed reason
"some in-bounds 8-neighbor read STUCK" does not hold for every in-bounds
starting point. -/
theorem walker_on_seed_sticks_without_neighbor :
    walkParticle (fun _ => 0) 1 0 (mkGrid 3) 3 1 1 =
        some (1, 1, writeGrid (mkGrid 3) 1 1 STUCK, 0) ∧
      inB 3 1 1 ∧
      ¬∃ dx dy : Int, ¬(dx = 0 ∧ dy = 0) ∧ |dx| ≤ 1 ∧ |dy| ≤ 1 ∧
        inB 3 (1 + dx) (1 + dy) ∧ readGrid (mkGrid 3) (1 + dx) (1 + dy) = STUCK := by
  refine ⟨by decide, by decide, ?_⟩
  rintro ⟨dx, dy, hne, hdx, hdy, hb, hst⟩
  obtain ⟨h1, h2⟩ := abs_le.1 hdx
  obtain ⟨h3, h4⟩ := abs_le.1 hdy
  have hdx3 : dx = -1 ∨ dx = 0 ∨ dx = 1 := by omega
  have hdy3 : dy = -1 ∨ dy = 0 ∨ dy = 1 := by omega
  rcases hdx3 with rfl | rfl | rfl <;> rcases hdy3 with rfl | rfl | rfl <;>
    first
      | exact hne ⟨rfl, rfl⟩
      | exact absurd hst (by decide)

/-- C2 (amended): for every in-bounds starting point whose own cell is not
stuck, whenever a walk returns, the final position is either out of bounds
(the lost marker, lattice untouched) or in bounds, in which case the cell was
committed stuck because some in-bounds 8-neighbor (a strict neighbor, offset
other than `(0,0)`) read stuck at the stick check; there is no third outcome.
Proved for both the sequential and the parallel walker. -/
theorem walker_terminal_dichotomy
    (σ σ2 : Nat → Nat) (wk wk2 mv i i2 : Nat) (g g2 : Grid) (n x y x2 y2 : Int)
    (xa ya xb yb : Int) (ga gb : Grid) (ia ib : Nat)
    (hwfa : WFGrid g n) (hwfb : WFGrid g2 n)
    (hstart : inB n x y) (hempty : readGrid g x y ≠ STUCK)
    (hw : walkParticle σ wk i g n x y = some (xa, ya, ga, ia))
    (hstart2 : inB n x2 y2) (hempty2 : readGrid g2 x2 y2 ≠ STUCK)
    (hw2 : walkParticlePar σ2 wk2 mv i2 g2 n x2 y2 = some (xb, yb, gb, ib)) :
    ((¬inB n xa ya ∧ ga = g) ∨
      (inB n xa ya ∧ ga = writeGrid g xa ya STUCK ∧ readGrid ga xa ya = STUCK ∧
        ∃ dx dy : Int, ¬(dx = 0 ∧ dy = 0) ∧ |dx| ≤ 1 ∧ |dy| ≤ 1 ∧
          inB n (xa + dx) (ya + dy) ∧ readGrid g (xa + dx) (ya + dy) = STUCK)) ∧
    ((¬inB n xb yb ∧ gb = g2) ∨
      (inB n xb yb ∧ gb = writeGrid g2 xb yb STUCK ∧ readGrid gb xb yb = STUCK ∧
        ∃ dx dy : Int, ¬(dx = 0 ∧ dy = 0) ∧ |dx| ≤ 1 ∧ |dy| ≤ 1 ∧
          inB n (xb + dx) (yb + dy) ∧
          readGrid g2 (xb + dx) (yb + dy) = STUCK)) := by
  constructor
  · rcases walkParticle_spec hw with ⟨hoob, rfl⟩ | ⟨hb, hstick, rfl⟩
    · exact Or.inl ⟨hoob, rfl⟩
    · have hnost : readGrid g xa ya ≠ STUCK :=
        walkParticle_not_stuck hw (fun _ => hempty) hb
      obtain ⟨d, hd, hdb, hdstuck⟩ := (shouldStick_iff g n xa ya).1 hstick
      obtain ⟨habs1, habs2⟩ := nbhd_abs hd
      refine Or.inr ⟨hb, rfl, readGrid_writeGrid_self hwfa hb.1 hb.2.1 hb.2.2.1 hb.2.2.2 STUCK,
        d.1, d.2, ?_, habs1, habs2, hdb, hdstuck⟩
      rintro ⟨hz1, hz2⟩
      rw [hz1, hz2] at hdstuck
      simp at hdstuck
      exact hnost hdstuck
  · rcases walkParticlePar_spec hw2 with ⟨hoob, rfl⟩ | ⟨hb, hstick, rfl⟩
    · exact Or.inl ⟨hoob, rfl⟩
    · have hnost : readGrid g2 xb yb ≠ STUCK :=
        walkParticlePar_not_stuck hw2 (fun _ => hempty2) hb
      obtain ⟨d, hd, hdb, hdstuck⟩ := (shouldStick_iff g2 n xb yb).1 hstick
      obtain ⟨habs1, habs2⟩ := nbhd_abs hd
      refine Or.inr ⟨hb, rfl, readGrid_writeGrid_self hwfb hb.1 hb.2.1 hb.2.2.1 hb.2.2.2 STUCK,
        d.1, d.2, ?_, habs1, habs2, ?_, hdstuck⟩
      · rintro ⟨hz1, hz2⟩
        rw [hz1, hz2] at hdstuck
        simp at hdstuck
        exact hnost hdstuck
      · exact hdb

/-- C2 witness: from the empty corner of the freshly seeded five-cell lattice,
the all-zero draw stream walks both variants off the lattice. -/
theorem walker_terminal_dichotomy_witness :
    ((¬inB 5 (-1) (-1) ∧ mkGrid 5 = mkGrid 5) ∨
      (inB 5 (-1) (-1) ∧ mkGrid 5 = writeGrid (mkGrid 5) (-1) (-1) STUCK ∧
        readGrid (mkGrid 5) (-1) (-1) = STUCK ∧
        ∃ dx dy : Int, ¬(dx = 0 ∧ dy = 0) ∧ |dx| ≤ 1 ∧ |dy| ≤ 1 ∧
          inB 5 (-1 + dx) (-1 + dy) ∧ readGrid (mkGrid 5) (-1 + dx) (-1 + dy) = STUCK)) ∧
    ((¬inB 5 (-1) (-1) ∧ mkGrid 5 = mkGrid 5) ∨
      (inB 5 (-1) (-1) ∧ mkGrid 5 = writeGrid (mkGrid 5) (-1) (-1) STUCK ∧
        readGrid (mkGrid 5) (-1) (-1) = STUCK ∧
        ∃ dx dy : Int, ¬(dx = 0 ∧ dy = 0) ∧ |dx| ≤ 1 ∧ |dy| ≤ 1 ∧
          inB 5 (-1 + dx) (-1 + dy) ∧ readGrid (mkGrid 5) (-1 + dx) (-1 + dy) = STUCK)) := by
  exact walker_terminal_dichotomy (fun _ => 0) (fun _ => 0) 2 2 1 0 0
    (mkGrid 5) (mkGrid 5) 5 0 0 0 0 (-1) (-1) (-1) (-1) (mkGrid 5) (mkGrid 5) 2 2
    (by decide) (by decide) (by decide) (by decide) (by decide)
    (by decide) (by decide) (by decide)

/-- the freshly seeded lattice satisfies the connectivity invariant: its only
stuck cell is the seed itself. -/
theorem mkGrid_connInv {n : Int} (hn : 0 < n) : ConnInv (mkGrid n) n (n / 2) := by
  have hc0 : 0 ≤ n / 2 := by omega
  have hseed : readGrid (mkGrid n) (n / 2) (n / 2) = STUCK := by
    rw [readGrid_mkGrid hn hc0 hc0]
    simp
  intro x y hb hst
  rw [readGrid_mkGrid hn hb.1 hb.2.2.1] at hst
  split at hst
  · next heq =>
    rw [heq.1, heq.2]
    exact Reaches.seed hseed
  · exact absurd hst (by simp [STUCK])

/-- the freshly seeded lattice satisfies the distance invariant at radius `0`. -/
theorem mkGrid_distInv {n : Int} (hn : 0 < n) : DistInv (mkGrid n) n (n / 2) 0 := by
  intro x y hb hst
  rw [readGrid_mkGrid hn hb.1 hb.2.2.1] at hst
  split at hst
  · next heq =>
    rw [heq.1, heq.2]
    unfold cheb
    simp
  · exact absurd hst (by simp [STUCK])

/-- C3: at termination of a run of either variant, every in-bounds stuck cell
lies in the 8-connected component of the center cell within the stuck
subgraph: cells are committed only when the 3x3 stick check (`shouldStick`,
shared by both variants) sees a stuck cell, and the seed is the root of every
such chain. -/
theorem stuck_cells_connected_to_seed
    (σ : Nat → Nat) (σs : Nat → Nat → Nat) (gp wk mv np np2 : Nat) (n n2 : Int)
    (res resp : RunResult)
    (hn : 0 < n) (hn2 : 0 < n2)
    (hs : seqRun σ gp wk np n = some res)
    (hp : parRun σs gp wk mv np2 n2 = some resp) :
    (∀ x y : Int, inB n x y → readGrid res.grid x y = STUCK →
        Reaches res.grid n (n / 2) x y) ∧
    (∀ x y : Int, inB n2 x y → readGrid resp.grid x y = STUCK →
        Reaches resp.grid n2 (n2 / 2) x y) := by
  unfold seqRun at hs
  unfold parRun at hp
  obtain ⟨_, hc, _, _, _⟩ :=
    seqLoop_inv hs (WFGrid_mkGrid n) (mkGrid_connInv hn) (mkGrid_distInv hn)
  obtain ⟨_, hc2⟩ := parLoop_connInv hp (WFGrid_mkGrid n2) (mkGrid_connInv hn2)
  exact ⟨hc, hc2⟩

/-- C3 witness: after one-particle runs of both drivers on the five-cell
lattice, the stuck center cell of each final grid is in the center's
component. -/
theorem stuck_cells_connected_to_seed_witness :
    Reaches (RunResult.mk (mkGrid 5) 0 [((0 : Int), true)]).grid 5 ((5 : Int) / 2) 2 2 ∧
    Reaches (RunResult.mk (mkGrid 5) 0 [((0 : Int), true)]).grid 5 ((5 : Int) / 2) 2 2 := by
  have h := stuck_cells_connected_to_seed (fun _ => 0) (fun _ _ => 0) 1 2 1 1 1 5 5
    ⟨mkGrid 5, 0, [(0, true)]⟩ ⟨mkGrid 5, 0, [(0, true)]⟩
    (by norm_num) (by norm_num) (by decide) (by decide)
  exact ⟨h.1 2 2 (by decide) (by decide), h.2 2 2 (by decide) (by decide)⟩

/-- C4 counterexample: for a terminated run with `N = 1` (odd), the final
radius is `0` while `N/2 - 1 = -1`, so the claimed bound
`finalRadius ≤ N/2 - 1` fails; the stuck seed cell violates the claim as
stated. -/
theorem radius_bound_fails_at_n1 :
    seqRun (fun _ => 0) 1 1 1 1 = some ⟨[[88]], 0, [(0, false)]⟩ ∧
      readGrid [[88]] 0 0 = STUCK ∧ inB 1 0 0 ∧
      ¬((0 : Int) ≤ (1 : Int) / 2 - 1) := by
  exact ⟨by decide, by decide, by decide, by decide⟩

/-- C4 (amended): at termination of a sequential run with odd grid size
`N ≥ 3`, every in-bounds stuck cell is within Chebyshev distance
`finalRadius` of the center and `finalRadius ≤ N/2 - 1`; for `N = 1` the
loop breaks immediately and the radius keeps its initial value `0`, which
exceeds `N/2 - 1 = -1`. -/
theorem stuck_within_final_radius
    (σ : Nat → Nat) (gp wk np : Nat) (n : Int) (res : RunResult)
    (hodd : n % 2 = 1) (hn : 3 ≤ n) (hs : seqRun σ gp wk np n = some res) :
    (∀ x y : Int, inB n x y → readGrid res.grid x y = STUCK →
        cheb (n / 2) x y ≤ res.radius) ∧
      res.radius ≤ n / 2 - 1 := by
  unfold seqRun at hs
  have hn0 : 0 < n := by omega
  have hwf : WFGrid (mkGrid n) n := WFGrid_mkGrid n
  have hc0 : 0 ≤ n / 2 := by omega
  have hseed : readGrid (mkGrid n) (n / 2) (n / 2) = STUCK := by
    rw [readGrid_mkGrid hn0 hc0 hc0]
    simp
  have hconn : ConnInv (mkGrid n) n (n / 2) := by
    intro x y hb hst
    rw [readGrid_mkGrid hn0 hb.1 hb.2.2.1] at hst
    split at hst
    · next heq =>
      rw [heq.1, heq.2]
      exact Reaches.seed hseed
    · exact absurd hst (by simp [STUCK])
  have hdist : DistInv (mkGrid n) n (n / 2) 0 := by
    intro x y hb hst
    rw [readGrid_mkGrid hn0 hb.1 hb.2.2.1] at hst
    split at hst
    · next heq =>
      rw [heq.1, heq.2]
      unfold cheb
      simp
    · exact absurd hst (by simp [STUCK])
  obtain ⟨_, _, hd, _, hthr⟩ := seqLoop_inv hs hwf hconn hdist
  exact ⟨hd, hthr (by omega)⟩

/-- C4 witness: a one-particle run on the five-cell lattice. -/
theorem stuck_within_final_radius_witness :
    (∀ x y : Int, inB 5 x y →
        readGrid (RunResult.mk (mkGrid 5) 0 [(0, true)]).grid x y = STUCK →
        cheb ((5 : Int) / 2) x y ≤ (RunResult.mk (mkGrid 5) 0 [(0, true)]).radius) ∧
      (RunResult.mk (mkGrid 5) 0 [(0, true)]).radius ≤ (5 : Int) / 2 - 1 := by
  exact stuck_within_final_radius (fun _ => 0) 1 2 1 5 ⟨mkGrid 5, 0, [(0, true)]⟩
    (by norm_num) (by norm_num) (by decide)

/-- C5: the radius snapshots observed by the iterations of either driver form
a non-decreasing sequence starting at `0` (the loops only ever replace the
radius by the maximum of its value and a new distance). -/
theorem radius_monotone
    (σ : Nat → Nat) (σs : Nat → Nat → Nat) (gp wk mv np np2 : Nat) (n n2 : Int)
    (res resp : RunResult)
    (hs : seqRun σ gp wk np n = some res)
    (hp : parRun σs gp wk mv np2 n2 = some resp) :
    (List.Chain' (· ≤ ·) (res.snaps.map Prod.fst) ∧
      (np ≠ 0 → (res.snaps.map Prod.fst).head? = some 0)) ∧
    (List.Chain' (· ≤ ·) (resp.snaps.map Prod.fst) ∧
      (np2 ≠ 0 → (resp.snaps.map Prod.fst).head? = some 0)) := by
  unfold seqRun at hs
  unfold parRun at hp
  obtain ⟨_, hchain, hhead, hne⟩ := seqLoop_snaps hs
  obtain ⟨_, hchain2, hhead2, hne2⟩ := parLoop_snaps hp
  constructor
  · constructor
    · exact (List.chain'_map Prod.fst).2 hchain
    · intro h0
      have hnn := hne h0
      rcases hsn : res.snaps with _ | ⟨p, t⟩
      · exact absurd hsn hnn
      · have hp1 : p.1 = 0 := hhead p (by rw [hsn]; simp)
        rw [List.map_cons, List.head?_cons, hp1]
  · constructor
    · exact (List.chain'_map Prod.fst).2 hchain2
    · intro h0
      have hnn := hne2 h0
      rcases hsn : resp.snaps with _ | ⟨p, t⟩
      · exact absurd hsn hnn
      · have hp1 : p.1 = 0 := hhead2 p (by rw [hsn]; simp)
        rw [List.map_cons, List.head?_cons, hp1]

/-- C5 witness: one-particle runs of both drivers on the five-cell lattice. -/
theorem radius_monotone_witness :
    (List.Chain' (· ≤ ·) ((RunResult.mk (mkGrid 5) 0 [((0 : Int), true)]).snaps.map Prod.fst) ∧
      ((1 : Nat) ≠ 0 →
        ((RunResult.mk (mkGrid 5) 0 [((0 : Int), true)]).snaps.map Prod.fst).head? = some 0)) ∧
    (List.Chain' (· ≤ ·) ((RunResult.mk (mkGrid 5) 0 [((0 : Int), true)]).snaps.map Prod.fst) ∧
      ((1 : Nat) ≠ 0 →
        ((RunResult.mk (mkGrid 5) 0 [((0 : Int), true)]).snaps.map Prod.fst).head? = some 0)) := by
  exact radius_monotone (fun _ => 0) (fun _ _ => 0) 1 2 1 1 1 5 5
    ⟨mkGrid 5, 0, [(0, true)]⟩ ⟨mkGrid 5, 0, [(0, true)]⟩ (by decide) (by decide)

/-- C6: once an iteration's radius snapshot shows saturation
(`r ≥ N/2 - 1`), no walk is attempted in that iteration and no walk is ever
attempted afterwards.  The sequential loop breaks (a saturated snapshot is the
last one); the parallel loop continues, but every later iteration sees a
saturated snapshot (the radius never decreases) and skips.  Consequently when
`N/2 - 1 ≤ 0` — in particular `N = 1` and `N = 3` — no walk at all is
attempted and the lattice stays the seeded initial grid. -/
theorem no_walk_after_saturation
    (σ : Nat → Nat) (σs : Nat → Nat → Nat) (gp wk mv np np2 : Nat) (n n2 : Int)
    (res resp : RunResult)
    (hs : seqRun σ gp wk np n = some res)
    (hp : parRun σs gp wk mv np2 n2 = some resp) :
    (∀ (pre : List (Int × Bool)) (v : Int) (b : Bool) (post : List (Int × Bool)),
        res.snaps = pre ++ (v, b) :: post → n / 2 - 1 ≤ v → b = false ∧ post = []) ∧
    (∀ (pre : List (Int × Bool)) (v : Int) (b : Bool) (post : List (Int × Bool)),
        resp.snaps = pre ++ (v, b) :: post → n2 / 2 - 1 ≤ v →
          b = false ∧ ∀ q ∈ post, q.2 = false) ∧
    (n / 2 - 1 ≤ 0 → res.grid = mkGrid n ∧ ∀ p ∈ res.snaps, p.2 = false) ∧
    (n2 / 2 - 1 ≤ 0 → resp.grid = mkGrid n2 ∧ ∀ p ∈ resp.snaps, p.2 = false) := by
  unfold seqRun at hs
  unfold parRun at hp
  refine ⟨seqLoop_noWalkAfterSat hs, parLoop_noWalkAfterSat hp, ?_, ?_⟩
  · intro hsat
    obtain ⟨hg, _, hall⟩ := seqLoop_saturated hs hsat
    exact ⟨hg, fun p hp2 => (hall p hp2).2⟩
  · intro hsat
    obtain ⟨hg, _, hall⟩ := parLoop_saturated hp hsat
    exact ⟨hg, fun p hp2 => (hall p hp2).2⟩

/-- C6 witness: one-particle runs on the three-cell lattice, where the first
snapshot is already saturated, no walk happens, and the output is the seed
alone. -/
theorem no_walk_after_saturation_witness :
    (∀ (pre : List (Int × Bool)) (v : Int) (b : Bool) (post : List (Int × Bool)),
        (RunResult.mk (mkGrid 3) 0 [((0 : Int), false)]).snaps = pre ++ (v, b) :: post →
          (3 : Int) / 2 - 1 ≤ v → b = false ∧ post = []) ∧
    (∀ (pre : List (Int × Bool)) (v : Int) (b : Bool) (post : List (Int × Bool)),
        (RunResult.mk (mkGrid 3) 0 [((0 : Int), false)]).snaps = pre ++ (v, b) :: post →
          (3 : Int) / 2 - 1 ≤ v → b = false ∧ ∀ q ∈ post, q.2 = false) ∧
    ((3 : Int) / 2 - 1 ≤ 0 →
      (RunResult.mk (mkGrid 3) 0 [((0 : Int), false)]).grid = mkGrid 3 ∧
        ∀ p ∈ (RunResult.mk (mkGrid 3) 0 [((0 : Int), false)]).snaps, p.2 = false) ∧
    ((3 : Int) / 2 - 1 ≤ 0 →
      (RunResult.mk (mkGrid 3) 0 [((0 : Int), false)]).grid = mkGrid 3 ∧
        ∀ p ∈ (RunResult.mk (mkGrid 3) 0 [((0 : Int), false)]).snaps, p.2 = false) := by
  exact no_walk_after_saturation (fun _ => 0) (fun _ _ => 0) 1 2 1 1 1 3 3
    ⟨mkGrid 3, 0, [(0, false)]⟩ ⟨mkGrid 3, 0, [(0, false)]⟩ (by decide) (by decide)

/-- C7: the writer emits exactly `gridSize` newline-separated lines, each of
`gridSize` comma-separated tokens from `0`/`1` with no other characters, a
cell becomes `1` exactly when it is stuck (given that cells only ever hold
`0` or `X`, as in every run), there is no trailing newline, and parsing the
stream back cell by cell reproduces the lattice exactly. -/
theorem writeToFile_csv_roundtrip
    (g : Grid) (gs : Nat)
    (hgs : 0 < gs)
    (hlen : g.length = gs)
    (hrows : ∀ row ∈ g, row.length = gs)
    (hcells : ∀ row ∈ g, ∀ v ∈ row, v = 0 ∨ v = STUCK) :
    (splitOnChar '\n' (writeToFile g gs)).length = gs ∧
    (∀ line ∈ splitOnChar '\n' (writeToFile g gs),
        (splitOnChar ',' line).length = gs ∧
        ∀ t ∈ splitOnChar ',' line, t = ['0'] ∨ t = ['1']) ∧
    (∀ i k : Nat, i < gs → k < gs →
        (splitOnChar ',' ((splitOnChar '\n' (writeToFile g gs)).getD i [])).getD k [] =
          (if (g.getD i []).getD k 0 = STUCK then ['1'] else ['0'])) ∧
    (writeToFile g gs).getLast? ≠ some '\n' := by
  have hgs0 : gs ≠ 0 := by omega
  have hsplitrow : ∀ i : Nat, splitOnChar ',' (rowOut g gs i) =
      (List.range gs).map fun k => cellOut ((g.getD i []).getD k 0) := by
    intro i
    rw [rowOut_eq_joinSep g gs i hgs0]
    apply splitOnChar_joinSep
    · simp [List.range_eq_nil, hgs0]
    · intro x hx
      obtain ⟨k, _, rfl⟩ := List.mem_map.1 hx
      intro hcm
      rcases mem_cellOut hcm with hc | hc <;> simp at hc
  have hlines : splitOnChar '\n' (writeToFile g gs) =
      (List.range gs).map (rowOut g gs) := by
    rw [writeToFile_eq g gs hgs0]
    apply splitOnChar_joinSep
    · simp [List.range_eq_nil, hgs0]
    · intro x hx
      obtain ⟨i, _, rfl⟩ := List.mem_map.1 hx
      intro hcm
      rcases mem_rowOut hcm with hc | hc | hc <;> simp at hc
  refine ⟨?_, ?_, ?_, ?_⟩
  · rw [hlines]
    simp
  · intro line hline
    rw [hlines] at hline
    obtain ⟨i, _, rfl⟩ := List.mem_map.1 hline
    rw [hsplitrow i]
    refine ⟨by simp, ?_⟩
    intro t ht
    obtain ⟨k, _, rfl⟩ := List.mem_map.1 ht
    rcases cellOut_cases ((g.getD i []).getD k 0) with hc | hc
    · exact Or.inl hc
    · exact Or.inr hc
  · intro i k hi hk
    rw [hlines, getD_map_range (rowOut g gs) [] hi, hsplitrow i,
      getD_map_range _ [] hk]
    rcases grid_cell_cases hlen hrows hcells hi hk with hc | hc
    · rw [hc]
      simp [cellOut, STUCK]
    · rw [hc]
      simp [cellOut, STUCK]
  · rw [writeToFile_eq g gs hgs0]
    obtain ⟨t, rfl⟩ : ∃ t, gs = t + 1 := ⟨gs - 1, by omega⟩
    rw [List.range_succ, List.map_append, List.map_singleton]
    have hne : rowOut g (t + 1) t ≠ [] := rowOut_ne_nil g (t + 1) t hgs0
    rw [getLast?_joinSep ['\n'] _ _ hne]
    intro hlast
    have hmem : '\n' ∈ rowOut g (t + 1) t := by
      have := List.getLast?_eq_getLast_of_ne_nil hne
      rw [this] at hlast
      have heq : (rowOut g (t + 1) t).getLast hne = '\n' := Option.some.inj hlast
      rw [← heq]
      exact List.getLast_mem hne
    rcases mem_rowOut hmem with hc | hc | hc <;> simp at hc

/-- C7 witness: a concrete well-formed three-cell lattice. -/
theorem writeToFile_csv_roundtrip_witness :
    (splitOnChar '\n' (writeToFile [[0, 88, 0], [88, 0, 0], [0, 0, 88]] 3)).length = 3 ∧
    (∀ line ∈ splitOnChar '\n' (writeToFile [[0, 88, 0], [88, 0, 0], [0, 0, 88]] 3),
        (splitOnChar ',' line).length = 3 ∧
        ∀ t ∈ splitOnChar ',' line, t = ['0'] ∨ t = ['1']) ∧
    (∀ i k : Nat, i < 3 → k < 3 →
        (splitOnChar ','
            ((splitOnChar '\n' (writeToFile [[0, 88, 0], [88, 0, 0], [0, 0, 88]] 3)).getD i
              [])).getD k [] =
          (if (([[0, 88, 0], [88, 0, 0], [0, 0, 88]] : Grid).getD i []).getD k 0 = STUCK then
            ['1'] else ['0'])) ∧
    (writeToFile [[0, 88, 0], [88, 0, 0], [0, 0, 88]] 3).getLast? ≠ some '\n' := by
  exact writeToFile_csv_roundtrip [[0, 88, 0], [88, 0, 0], [0, 0, 88]] 3
    (by norm_num) (by decide) (by decide) (by decide)

end DLA
